import Mathlib

/-!
# OBSRecorder: protocol engine of the OBS websocket client

A shallow embedding of `Plugins/UEOBSRecorder/Source/UEOBSRecorder/Private/OBSRecorder.cpp`.

* `FString` is `String`; a byte (`uint8`) is a `Nat` below 256.
* The functions of the engine and of the hash plug-in that the file calls are not part of the
  repository.  The pure, fully determined ones (`TCharToNibble`, `HexToBytes`, `FBase64::Encode`,
  the `FJsonObject` accessors) are written out; the hash and the JSON text codec are the fields
  of `Lib`, over which the statements are quantified.  The round trip of an envelope through
  JSON text is proved for the reference writer and reader of `Ref`.
* The transport (`IWebSocket`) is a trace of the calls made on it plus the flag `IsConnected`
  reports.
* `UE_LOG` lines write to the log only and are left out.
-/

namespace UOBSRecorder

/-! ## Engine: hexadecimal digits and Base64 -/

/-- Engine `TCharToNibble`: the value of one hexadecimal digit.  Any other character fails the
engine's check, which is `none` here. -/
def TCharToNibble (Hex : Char) : Option Nat :=
  if '0' ≤ Hex ∧ Hex ≤ '9' then some (Hex.toNat - '0'.toNat)
  else if 'A' ≤ Hex ∧ Hex ≤ 'F' then some (Hex.toNat - 'A'.toNat + 10)
  else if 'a' ≤ Hex ∧ Hex ≤ 'f' then some (Hex.toNat - 'a'.toNat + 10)
  else none

/-- The loop of the engine's `HexToBytes`: two digits make one byte, high nibble first.  The
`k`-th element of the result is the byte stored at `OutBytes[k]`. -/
def HexToBytesLoop : List Char → Option (List Nat)
  | [] => some []
  | [_] => none
  | hi :: lo :: rest =>
    match TCharToNibble hi, TCharToNibble lo, HexToBytesLoop rest with
    | some h, some l, some bs => some ((((h <<< 4) % 256) ||| l) :: bs)
    | _, _, _ => none

/-- Engine `HexToBytes(HexString, OutBytes)`: the bytes written to `OutBytes`, in order from
index 0; the returned count is the length of this list.  A string of odd length has its first
digit decoded alone (the padded nibble). -/
def HexToBytes (HexString : String) : Option (List Nat) :=
  match HexString.toList with
  | [] => some []
  | c :: rest =>
    if (c :: rest).length % 2 = 1 then
      match TCharToNibble c, HexToBytesLoop rest with
      | some n, some bs => some (n :: bs)
      | _, _ => none
    else HexToBytesLoop (c :: rest)

/-- The Base64 alphabet of `FBase64`. -/
def EncodingAlphabet : List Char :=
  "ABCDEFGHIJKLMNOPQRSTUVWXYZabcdefghijklmnopqrstuvwxyz0123456789+/".toList

/-- The character for the six bits of `ByteTriplet` left after `k` shifts by 6. -/
def EncodeSextet (ByteTriplet k : Nat) : Char :=
  EncodingAlphabet.getD ((ByteTriplet >>> (6 * k)) &&& 0x3F) 'A'

/-- The loop of `FBase64::Encode`: three bytes become four characters; a rest of one or two
bytes is padded with `=`. -/
def FBase64EncodeLoop : List Nat → List Char
  | [] => []
  | [A] =>
    let ByteTriplet := A <<< 16
    [EncodeSextet ByteTriplet 3, EncodeSextet ByteTriplet 2, '=', '=']
  | [A, B] =>
    let ByteTriplet := (A <<< 16) ||| (B <<< 8)
    [EncodeSextet ByteTriplet 3, EncodeSextet ByteTriplet 2, EncodeSextet ByteTriplet 1, '=']
  | A :: B :: C :: rest =>
    let ByteTriplet := (A <<< 16) ||| (B <<< 8) ||| C
    EncodeSextet ByteTriplet 3 :: EncodeSextet ByteTriplet 2 :: EncodeSextet ByteTriplet 1 ::
      EncodeSextet ByteTriplet 0 :: FBase64EncodeLoop rest

/-- Engine `FBase64::Encode(Source, Length)` on the `Length` bytes of `Source`. -/
def FBase64Encode (Source : List Nat) : String :=
  String.mk (FBase64EncodeLoop Source)

/-- The position of a character in the Base64 alphabet. -/
def SextetValue (c : Char) : Nat := EncodingAlphabet.indexOf c

/-- The bytes a Base64 text stands for: the inverse of `FBase64EncodeLoop` on byte strings. -/
def Base64Bytes : List Char → List Nat
  | c0 :: c1 :: c2 :: c3 :: rest =>
    if c2 = '=' then [(SextetValue c0 * 64 + SextetValue c1) / 16]
    else if c3 = '=' then
      let t := (SextetValue c0 * 64 + SextetValue c1) * 64 + SextetValue c2
      [t / 1024, t / 4 % 256]
    else
      let t := ((SextetValue c0 * 64 + SextetValue c1) * 64 + SextetValue c2) * 64 + SextetValue c3
      t / 65536 :: t / 256 % 256 :: t % 256 :: Base64Bytes rest
  | _ => []

/-! ## The libraries the file is linked against -/

/-- The JSON document model of the engine (`FJsonValue`).  A number is an integer, as are all the
numbers the program writes (opcodes, `rpcVersion`, `eventSubscriptions`); documents holding other
numbers are outside the model. -/
inductive FJsonValue where
  | Null : FJsonValue
  | Boolean : Bool → FJsonValue
  | Number : Int → FJsonValue
  | String : String → FJsonValue
  | Array : List FJsonValue → FJsonValue
  | Object : List (String × FJsonValue) → FJsonValue

/-- Engine `FJsonObject`: the fields in the order they were first set.  The engine keeps them in
a `TMap<FString, ..>`, which finds a key whatever the case of its letters (`FindField`). -/
abbrev FJsonObject := List (String × FJsonValue)

/-- The functions of the hash plug-in and of the JSON text codec. -/
structure Lib where
  /-- `UHashSHA256BPLibrary::FromString` followed by `FSHA256Hash::GetHash`: the digest of a
  string, as the text the plug-in renders it in. -/
  GetHash : String → String
  /-- `FJsonSerializer::Serialize` into a `TJsonWriter<>`. -/
  Serialize : FJsonObject → String
  /-- `FJsonSerializer::Deserialize` from a `TJsonReader<>`: `none` when the text is not a JSON
  object. -/
  Deserialize : String → Option FJsonObject

/-! ## Authentication key -/

/-- The size of the buffer `new uint8[32]` in `HexToBase64`. -/
def SourceSize : Nat := 32

/-- `UOBSRecorder::HexToBase64`: decode the hexadecimal string into the 32-byte buffer and encode
the decoded bytes as Base64.  `none` when a byte would be written past the buffer, or a digit
fails the engine's check. -/
def HexToBase64 (HexString : String) : Option String :=
  match HexToBytes HexString with
  | none => none
  | some Source => if Source.length ≤ SourceSize then some (FBase64Encode Source) else none

/-- `UOBSRecorder::GenerateAuthenticationKey`. -/
def GenerateAuthenticationKey (L : Lib) (Password Salt Challenge : String) : Option String :=
  let SecretString := Password ++ Salt
  let SHA256 := L.GetHash SecretString
  match HexToBase64 SHA256 with
  | none => none
  | some Base64Secret =>
    let SecretString := Base64Secret ++ Challenge
    let SHA256 := L.GetHash SecretString
    HexToBase64 SHA256

/-- The hash plug-in renders every digest as exactly 64 hexadecimal digits. -/
def RendersDigestAs64HexDigits (L : Lib) : Prop :=
  ∀ x, (L.GetHash x).length = 64 ∧ ∀ c ∈ (L.GetHash x).toList, (TCharToNibble c).isSome

/-- No two different strings of `inputs` have the same digest. -/
def CollisionFree (SHA256 : String → List Nat) (inputs : List String) : Prop :=
  ∀ x ∈ inputs, ∀ y ∈ inputs, SHA256 x = SHA256 y → x = y

/-! ## JSON documents -/

/-- Engine `TMap::Add`, which `FJsonObject::SetField` goes through: an existing key has its value
replaced in place, a new key is appended.  Keys are compared as written, which is the engine's
match whenever no two keys of the map differ in the case of their letters only. -/
def TMapAdd {α : Type} : List (String × α) → String → α → List (String × α)
  | [], Key, Value => [(Key, Value)]
  | (k, v) :: rest, Key, Value =>
    if k = Key then (Key, Value) :: rest else (k, v) :: TMapAdd rest Key Value

/-- Engine `FJsonObject::SetNumberField`. -/
def SetNumberField (Object : FJsonObject) (FieldName : String) (Number : Int) : FJsonObject :=
  TMapAdd Object FieldName (FJsonValue.Number Number)

/-- Engine `FJsonObject::SetStringField`. -/
def SetStringField (Object : FJsonObject) (FieldName : String) (StringValue : String) :
    FJsonObject :=
  TMapAdd Object FieldName (FJsonValue.String StringValue)

/-- Engine `FJsonObject::SetObjectField`. -/
def SetObjectField (Object : FJsonObject) (FieldName : String) (JsonObject : FJsonObject) :
    FJsonObject :=
  TMapAdd Object FieldName (FJsonValue.Object JsonObject)

/-- Engine `FJsonValue::AsString`: a number is rendered by `FString::SanitizeFloat(Value, 0)`, a
boolean as `true` or `false`; the other kinds have no string and give the empty one. -/
def AsString : FJsonValue → String
  | FJsonValue.String s => s
  | FJsonValue.Number n => toString n
  | FJsonValue.Boolean b => if b then "true" else "false"
  | _ => ""

/-- Engine `FJsonValue::AsObject`: the object, or the shared empty object for any other kind. -/
def AsObject : FJsonValue → FJsonObject
  | FJsonValue.Object o => o
  | _ => []

/-- Engine `LowerAscii`: the code of a character, the ASCII capitals folded to small letters. -/
def LowerAscii (c : Char) : Nat :=
  if 65 ≤ c.toNat ∧ c.toNat ≤ 90 then c.toNat + 32 else c.toNat

/-- Engine `FString` equality (`Stricmp`), by which `TMap<FString, ..>` matches a key: the case
of ASCII letters is ignored. -/
def KeyMatches (a b : String) : Bool :=
  a.toList.map LowerAscii == b.toList.map LowerAscii

/-- Engine `TMap::Find` on the fields of an `FJsonObject`: the value under the key that matches
`FieldName`. -/
def FindField : FJsonObject → String → Option FJsonValue
  | [], _ => none
  | (k, v) :: rest, FieldName =>
    if KeyMatches k FieldName then some v else FindField rest FieldName

/-- Engine `FJsonObject::GetStringField`: a missing field reads as the null value. -/
def GetStringField (Object : FJsonObject) (FieldName : String) : String :=
  match FindField Object FieldName with
  | some v => AsString v
  | none => AsString FJsonValue.Null

/-- Engine `FJsonObject::GetObjectField`: a missing field, or one that is not an object, reads as
the null value. -/
def GetObjectField (Object : FJsonObject) (FieldName : String) : FJsonObject :=
  match FindField Object FieldName with
  | some (FJsonValue.Object o) => AsObject (FJsonValue.Object o)
  | _ => AsObject FJsonValue.Null

/-! ## Opcodes and envelopes -/

/-- Modelled from the spec: the enumeration `EClientRequest` of `OBSRecorder.h`, which is not
among the sources.  Its members are the ones the file names; their values are the codes of the
opcode table. -/
inductive EClientRequest where
  | OpCode0 | OpCode1 | OpCode2 | OpCode5 | OpCode6 | OpCode7
  deriving DecidableEq, Repr

/-- The numeric value of an opcode. -/
def EClientRequest.toInt : EClientRequest → Int
  | OpCode0 => 0
  | OpCode1 => 1
  | OpCode2 => 2
  | OpCode5 => 5
  | OpCode6 => 6
  | OpCode7 => 7

/-- Engine `FString::FromInt`. -/
def FromInt (Num : Int) : String := toString Num

/-- `UOBSRecorder::FormJsonMessage`. -/
def FormJsonMessage (L : Lib) (OpCode : EClientRequest) (DataJsonObject : FJsonObject) : String :=
  let JsonObject : FJsonObject := []
  let JsonObject := SetNumberField JsonObject "op" OpCode.toInt
  let JsonObject := SetObjectField JsonObject "d" DataJsonObject
  L.Serialize JsonObject

/-- `UOBSRecorder::MakeRequestJsonObject`.  `NewGuid` is the text of `FGuid::NewGuid()` for this
call.  `requestData` is set while still empty and filled afterwards through the shared pointer:
it keeps its place as the third field and holds the filled object. -/
def MakeRequestJsonObject (L : Lib) (NewGuid : String) (RequestType : String)
    (StringField : List (String × String)) : String :=
  let RequestJsonObject : FJsonObject := []
  let RequestJsonObject := SetStringField RequestJsonObject "requestType" RequestType
  let RequestJsonObject := SetStringField RequestJsonObject "requestId" NewGuid
  let RequestDataJsonObject : FJsonObject := []
  let RequestDataJsonObject :=
    if !StringField.isEmpty then
      StringField.foldl (fun o n => SetStringField o n.1 n.2) RequestDataJsonObject
    else RequestDataJsonObject
  let RequestJsonObject := SetObjectField RequestJsonObject "requestData" RequestDataJsonObject
  FormJsonMessage L EClientRequest.OpCode6 RequestJsonObject

/-! ## The transport and the operations on it -/

/-- A call on the transport (`IWebSocket`). -/
inductive Call where
  | Connect : Call
  | Send : String → Call
  | Close : Call
  deriving DecidableEq, Repr

/-- The transport as the program sees it: what `IsConnected()` reports, and the calls made on it
so far, oldest first. -/
structure World where
  IsConnected : Bool
  Calls : List Call
  deriving DecidableEq, Repr

/-- The call `WebSocket->Send(Data)`. -/
def World.Send (w : World) (Data : String) : World :=
  { w with Calls := w.Calls ++ [Call.Send Data] }

/-- `UOBSRecorder::StartConnection`. -/
def StartConnection (w : World) : World :=
  if !w.IsConnected then { w with Calls := w.Calls ++ [Call.Connect] } else w

/-- `UOBSRecorder::Deinitialize`. -/
def Deinitialize (w : World) : World :=
  if w.IsConnected then { w with Calls := w.Calls ++ [Call.Close] } else w

/-- `UOBSRecorder::Identify`.  `none` when the key derivation faults. -/
def Identify (L : Lib) (HelloMessageJson : FJsonObject) (Password : String) (w : World) :
    Option World :=
  let Challenge :=
    GetStringField (GetObjectField (GetObjectField HelloMessageJson "d") "authentication")
      "challenge"
  let Salt :=
    GetStringField (GetObjectField (GetObjectField HelloMessageJson "d") "authentication") "salt"
  match GenerateAuthenticationKey L Password Salt Challenge with
  | none => none
  | some AuthenticationKey =>
    let IdentifyJsonObject : FJsonObject := []
    let IdentifyJsonObject := SetNumberField IdentifyJsonObject "rpcVersion" 1
    let IdentifyJsonObject := SetStringField IdentifyJsonObject "authentication" AuthenticationKey
    let IdentifyJsonObject := SetNumberField IdentifyJsonObject "eventSubscriptions" 33
    some (w.Send (FormJsonMessage L EClientRequest.OpCode1 IdentifyJsonObject))

/-- The first lines of the `OnMessage` handler: the document the text deserializes to, the text
of its field `op` and the object under its field `d`.  `FJsonObjectWrapper` starts with an empty
object and keeps it when the text does not deserialize. -/
def ReadEnvelope (L : Lib) (Message : String) : FJsonObject × String × FJsonObject :=
  let OBSJsonResponse : FJsonObject :=
    match L.Deserialize Message with
    | some JsonObject => JsonObject
    | none => []
  let MessageType := GetStringField OBSJsonResponse "op"
  let MessageData := GetObjectField OBSJsonResponse "d"
  (OBSJsonResponse, MessageType, MessageData)

/-- The `OnMessage` handler installed by `UOBSRecorder::Initialize`.  The branches for the
opcodes 2, 5 and 7 only write to the log.  `FString` equality ignores case, which makes no
difference against a text of digits. -/
def OnMessage (L : Lib) (Password : String) (Message : String) (w : World) : Option World :=
  let OBSJsonResponse := (ReadEnvelope L Message).1
  let MessageType := (ReadEnvelope L Message).2.1
  if MessageType = FromInt EClientRequest.OpCode0.toInt then
    Identify L OBSJsonResponse Password w
  else if MessageType = FromInt EClientRequest.OpCode2.toInt then some w
  else if MessageType = FromInt EClientRequest.OpCode5.toInt then some w
  else if MessageType = FromInt EClientRequest.OpCode7.toInt then some w
  else some w

/-- The transport's `connected` signal: from then on `IsConnected()` reports true.  The
`OnConnected` handler of the program only writes to the log. -/
def TransportConnected (w : World) : World :=
  { w with IsConnected := true }

/-- `UOBSRecorder::MakeRecordRequest`.  The enumeration `ERecordRequest` is not among the sources:
it is a type parameter, with the display text of its members. -/
def MakeRecordRequest {ERecordRequest : Type} (GetDisplayValueAsText : ERecordRequest → String)
    (L : Lib) (NewGuid : String) (RecordRequest : ERecordRequest) (w : World) : World :=
  let Request := GetDisplayValueAsText RecordRequest
  w.Send (MakeRequestJsonObject L NewGuid Request [])

/-- `UOBSRecorder::ToggleInputMute`. -/
def ToggleInputMute (L : Lib) (NewGuid : String) (InputName : String) (w : World) : World :=
  let Map : List (String × String) := []
  let Map := TMapAdd Map "inputName" InputName
  w.Send (MakeRequestJsonObject L NewGuid "ToggleInputMute" Map)

/-- `UOBSRecorder::GetProfileParameter`. -/
def GetProfileParameter (L : Lib) (NewGuid : String) (parameterCategory parameterName : String)
    (w : World) : World :=
  let Map : List (String × String) := []
  let Map := TMapAdd Map "parameterCategory" parameterCategory
  let Map := TMapAdd Map "parameterName" parameterName
  w.Send (MakeRequestJsonObject L NewGuid "GetProfileParameter" Map)

/-- `UOBSRecorder::SetRecordDirectory`: two requests, each with a GUID of its own. -/
def SetRecordDirectory (L : Lib) (NewGuid1 NewGuid2 : String) (Directory FileName : String)
    (w : World) : World :=
  let Map : List (String × String) := []
  let Map := TMapAdd Map "parameterValue" Directory
  let Map := TMapAdd Map "parameterName" "FilePath"
  let Map := TMapAdd Map "parameterCategory" "SimpleOutput"
  let w := w.Send (MakeRequestJsonObject L NewGuid1 "SetProfileParameter" Map)
  let Map2 : List (String × String) := []
  let Map2 := TMapAdd Map2 "parameterValue" FileName
  let Map2 := TMapAdd Map2 "parameterName" "FilenameFormatting"
  let Map2 := TMapAdd Map2 "parameterCategory" "Output"
  w.Send (MakeRequestJsonObject L NewGuid2 "SetProfileParameter" Map2)

/-- `UOBSRecorder::MakeGetRequest`. -/
def MakeGetRequest (L : Lib) (NewGuid : String) (Request : String) (w : World) : World :=
  w.Send (MakeRequestJsonObject L NewGuid Request [])

/-! ## A reference instance of the libraries

SHA-256 with lower-case hexadecimal rendering, and a compact JSON writer and reader.  This
instance serves to evaluate the program on concrete messages, and its reader is proved to give
back every document its writer wrote. -/

namespace Ref

/-! ### SHA-256 (FIPS 180-4) on bytes, words as `Nat` modulo `2^32` -/

/-- The first 64 primes. -/
def primes : List Nat :=
  [2, 3, 5, 7, 11, 13, 17, 19, 23, 29, 31, 37, 41, 43, 47, 53, 59, 61, 67, 71, 73, 79, 83, 89,
   97, 101, 103, 107, 109, 113, 127, 131, 137, 139, 149, 151, 157, 163, 167, 173, 179, 181, 191,
   193, 197, 199, 211, 223, 227, 229, 233, 239, 241, 251, 257, 263, 269, 271, 277, 281, 283, 293,
   307, 311]

/-- The largest `r` below `2 ^ bits` with `r ^ k ≤ n`, found bit by bit from the top. -/
def iroot (k n : Nat) : Nat → Nat → Nat
  | 0, r => r
  | bits + 1, r => iroot k n bits (if (r + 2 ^ bits) ^ k ≤ n then r + 2 ^ bits else r)

/-- The first 32 bits of the fractional part of the `k`-th root of `p`. -/
def fracRoot (k p : Nat) : Nat := iroot k (p * 2 ^ (32 * k)) 36 0 % 2 ^ 32

/-- The round constants: fractional parts of the cube roots of the first 64 primes. -/
def K : List Nat := primes.map (fracRoot 3)

def W32 : Nat := 4294967296

def rotr (x n : Nat) : Nat := ((x >>> n) ||| (x <<< (32 - n))) % W32

def ssig0 (x : Nat) : Nat := rotr x 7 ^^^ rotr x 18 ^^^ (x >>> 3)
def ssig1 (x : Nat) : Nat := rotr x 17 ^^^ rotr x 19 ^^^ (x >>> 10)
def bsig0 (x : Nat) : Nat := rotr x 2 ^^^ rotr x 13 ^^^ rotr x 22
def bsig1 (x : Nat) : Nat := rotr x 6 ^^^ rotr x 11 ^^^ rotr x 25
def ch (x y z : Nat) : Nat := (x &&& y) ^^^ ((W32 - 1 - x) &&& z)
def maj (x y z : Nat) : Nat := (x &&& y) ^^^ (x &&& z) ^^^ (y &&& z)

structure State where
  a : Nat
  b : Nat
  c : Nat
  d : Nat
  e : Nat
  f : Nat
  g : Nat
  h : Nat

/-- The initial hash value: fractional parts of the square roots of the first 8 primes. -/
def init : State :=
  ⟨fracRoot 2 2, fracRoot 2 3, fracRoot 2 5, fracRoot 2 7, fracRoot 2 11, fracRoot 2 13,
   fracRoot 2 17, fracRoot 2 19⟩

/-- Message schedule, newest word first: `ws` holds w[t-1], w[t-2], ... -/
def extend : Nat → List Nat → List Nat
  | 0, ws => ws
  | n + 1, ws =>
    let w := (ssig1 (ws.getD 1 0) + ws.getD 6 0 + ssig0 (ws.getD 14 0) + ws.getD 15 0) % W32
    extend n (w :: ws)

def round (s : State) (kw : Nat × Nat) : State :=
  let t1 := (s.h + bsig1 s.e + ch s.e s.f s.g + kw.1 + kw.2) % W32
  let t2 := (bsig0 s.a + maj s.a s.b s.c) % W32
  ⟨(t1 + t2) % W32, s.a, s.b, s.c, (s.d + t1) % W32, s.e, s.f, s.g⟩

def compress (s : State) (block : List Nat) : State :=
  let ws := (extend 48 block.reverse).reverse
  let r := (K.zip ws).foldl round s
  ⟨(s.a + r.a) % W32, (s.b + r.b) % W32, (s.c + r.c) % W32, (s.d + r.d) % W32,
   (s.e + r.e) % W32, (s.f + r.f) % W32, (s.g + r.g) % W32, (s.h + r.h) % W32⟩

def beWord : List Nat → Nat
  | [b0, b1, b2, b3] => ((b0 * 256 + b1) * 256 + b2) * 256 + b3
  | _ => 0

def words : Nat → List Nat → List Nat
  | 0, _ => []
  | n + 1, bs => beWord (bs.take 4) :: words n (bs.drop 4)

def blocks : Nat → State → List Nat → State
  | 0, s, _ => s
  | n + 1, s, bs => blocks n (compress s (words 16 (bs.take 64))) (bs.drop 64)

def be (n width : Nat) : List Nat :=
  (List.range width).reverse.map fun i => (n >>> (8 * i)) % 256

def pad (msg : List Nat) : List Nat :=
  let l := msg.length
  let z := (119 - l % 64) % 64
  msg ++ [0x80] ++ List.replicate z 0 ++ be (8 * l) 8

def digest (msg : List Nat) : List Nat :=
  let p := pad msg
  let s := blocks (p.length / 64) init p
  be s.a 4 ++ be s.b 4 ++ be s.c 4 ++ be s.d 4 ++ be s.e 4 ++ be s.f 4 ++ be s.g 4 ++ be s.h 4


/-- UTF-8 bytes of one character. -/
def utf8Char (c : Char) : List Nat :=
  let n := c.toNat
  if n < 0x80 then [n]
  else if n < 0x800 then [0xC0 + n / 64, 0x80 + n % 64]
  else if n < 0x10000 then [0xE0 + n / 4096, 0x80 + n / 64 % 64, 0x80 + n % 64]
  else [0xF0 + n / 262144, 0x80 + n / 4096 % 64, 0x80 + n / 64 % 64, 0x80 + n % 64]

/-- The raw SHA-256 digest of the UTF-8 bytes of a string. -/
def SHA256 (s : String) : List Nat := digest (s.toList.flatMap utf8Char)

/-- One lower-case hexadecimal digit. -/
def NibbleToTChar (n : Nat) : Char := "0123456789abcdef".toList.getD n '0'

/-- Two hexadecimal digits per byte, high nibble first. -/
def HexDigits : List Nat → List Char
  | [] => []
  | b :: rest => NibbleToTChar (b / 16) :: NibbleToTChar (b % 16) :: HexDigits rest

/-- The hexadecimal rendering of a byte string. -/
def BytesToHex (bs : List Nat) : String := String.mk (HexDigits bs)

/-- The digest of a string as 64 hexadecimal digits. -/
def GetHash (s : String) : String := BytesToHex (SHA256 s)

/-! ### JSON text -/

def writeChar (c : Char) : List Char :=
  if c = '"' then ['\\', '"']
  else if c = '\\' then ['\\', '\\']
  else if c = '\n' then ['\\', 'n']
  else if c = '\r' then ['\\', 'r']
  else if c = '\t' then ['\\', 't']
  else [c]

def writeString (s : String) : List Char :=
  '"' :: (s.toList.flatMap writeChar ++ ['"'])

/-- The decimal digit for a number below ten. -/
def digitChar (d : Nat) : Char := Char.ofNat (48 + d)

/-- The decimal digits of a number, most significant first. -/
def natDigits : Nat → Nat → List Nat
  | 0, _ => []
  | fuel + 1, n => if n < 10 then [n] else natDigits fuel (n / 10) ++ [n % 10]

def writeNat (n : Nat) : List Char := (natDigits (n + 1) n).map digitChar

def writeInt : Int → List Char
  | Int.ofNat n => writeNat n
  | Int.negSucc n => '-' :: writeNat (n + 1)

mutual
def writeValue : FJsonValue → List Char
  | FJsonValue.Null => ['n', 'u', 'l', 'l']
  | FJsonValue.Boolean b => if b then ['t', 'r', 'u', 'e'] else ['f', 'a', 'l', 's', 'e']
  | FJsonValue.Number n => writeInt n
  | FJsonValue.String s => writeString s
  | FJsonValue.Array a => '[' :: (writeElements a ++ [']'])
  | FJsonValue.Object o => '{' :: (writeMembers o ++ ['}'])
def writeElements : List FJsonValue → List Char
  | [] => []
  | [v] => writeValue v
  | v :: w :: rest => writeValue v ++ ',' :: writeElements (w :: rest)
def writeMembers : List (String × FJsonValue) → List Char
  | [] => []
  | [(k, v)] => writeString k ++ ':' :: writeValue v
  | (k, v) :: m :: rest => writeString k ++ ':' :: (writeValue v ++ ',' :: writeMembers (m :: rest))
end

def Serialize (o : FJsonObject) : String := String.mk (writeValue (FJsonValue.Object o))

def isWs (c : Char) : Bool := c = ' ' ∨ c = '\n' ∨ c = '\r' ∨ c = '\t'

def skipWs : List Char → List Char
  | [] => []
  | c :: cs => if isWs c then skipWs cs else c :: cs

def readEscape (c : Char) : Option Char :=
  if c = '"' then some '"'
  else if c = '\\' then some '\\'
  else if c = '/' then some '/'
  else if c = 'n' then some '\n'
  else if c = 'r' then some '\r'
  else if c = 't' then some '\t'
  else none

/-- The characters of a string after its opening quote, up to the closing one. -/
def readString : List Char → List Char → Option (String × List Char)
  | _, [] => none
  | acc, c :: cs =>
    if c = '"' then some (String.mk acc.reverse, cs)
    else if c = '\\' then
      match cs with
      | [] => none
      | e :: rest =>
        match readEscape e with
        | some d => readString (d :: acc) rest
        | none => none
    else readString (c :: acc) cs

def readDigits : Nat → List Char → Nat × List Char
  | acc, [] => (acc, [])
  | acc, c :: cs =>
    if c.isDigit then readDigits (10 * acc + (c.toNat - '0'.toNat)) cs else (acc, c :: cs)

def readNumber : List Char → Option (FJsonValue × List Char)
  | [] => none
  | c :: rest =>
    if c = '-' then
      match rest with
      | [] => none
      | d :: rest1 =>
        if d.isDigit then
          some (FJsonValue.Number (-((readDigits 0 (d :: rest1)).1 : Int)),
            (readDigits 0 (d :: rest1)).2)
        else none
    else if c.isDigit then
      some (FJsonValue.Number ((readDigits 0 (c :: rest)).1 : Int), (readDigits 0 (c :: rest)).2)
    else none

inductive Mode where
  | value : Mode
  | members : List (String × FJsonValue) → Mode
  | elements : List FJsonValue → Mode

def read : Nat → Mode → List Char → Option (FJsonValue × List Char)
  | 0, _, _ => none
  | fuel + 1, Mode.value, cs =>
    match skipWs cs with
    | [] => none
    | c :: rest =>
      if c = '{' then
        match skipWs rest with
        | [] => none
        | c1 :: rest1 =>
          if c1 = '}' then some (FJsonValue.Object [], rest1)
          else read fuel (Mode.members []) (c1 :: rest1)
      else if c = '[' then
        match skipWs rest with
        | [] => none
        | c1 :: rest1 =>
          if c1 = ']' then some (FJsonValue.Array [], rest1)
          else read fuel (Mode.elements []) (c1 :: rest1)
      else if c = '"' then
        match readString [] rest with
        | some (s, rest1) => some (FJsonValue.String s, rest1)
        | none => none
      else if c = 't' then
        match rest with
        | 'r' :: 'u' :: 'e' :: rest1 => some (FJsonValue.Boolean true, rest1)
        | _ => none
      else if c = 'f' then
        match rest with
        | 'a' :: 'l' :: 's' :: 'e' :: rest1 => some (FJsonValue.Boolean false, rest1)
        | _ => none
      else if c = 'n' then
        match rest with
        | 'u' :: 'l' :: 'l' :: rest1 => some (FJsonValue.Null, rest1)
        | _ => none
      else readNumber (c :: rest)
  | fuel + 1, Mode.members acc, cs =>
    match skipWs cs with
    | [] => none
    | c :: rest =>
      if c = '"' then
        match readString [] rest with
        | none => none
        | some (k, rest1) =>
          match skipWs rest1 with
          | [] => none
          | c2 :: rest2 =>
            if c2 = ':' then
              match read fuel Mode.value rest2 with
              | none => none
              | some (v, rest3) =>
                match skipWs rest3 with
                | [] => none
                | c4 :: rest4 =>
                  if c4 = ',' then read fuel (Mode.members (TMapAdd acc k v)) rest4
                  else if c4 = '}' then some (FJsonValue.Object (TMapAdd acc k v), rest4)
                  else none
            else none
      else none
  | fuel + 1, Mode.elements acc, cs =>
    match read fuel Mode.value cs with
    | none => none
    | some (v, rest) =>
      match skipWs rest with
      | [] => none
      | c :: rest1 =>
        if c = ',' then read fuel (Mode.elements (acc ++ [v])) rest1
        else if c = ']' then some (FJsonValue.Array (acc ++ [v]), rest1)
        else none

def Deserialize (Text : String) : Option FJsonObject :=
  match read (Text.length + 1) Mode.value Text.toList with
  | some (FJsonValue.Object o, rest) => if skipWs rest = [] then some o else none
  | _ => none

/-- The text that follows a number does not go on with a digit. -/
def NoDigitHead (rest : List Char) : Prop := ∀ c tl, rest = c :: tl → c.isDigit = false

mutual
/-- A document of the engine: no object holds the same key twice. -/
def WellFormed : FJsonValue → Prop
  | FJsonValue.Array a => WellFormedElements a
  | FJsonValue.Object o => WellFormedMembers o
  | _ => True
def WellFormedElements : List FJsonValue → Prop
  | [] => True
  | v :: rest => WellFormed v ∧ WellFormedElements rest
def WellFormedMembers : List (String × FJsonValue) → Prop
  | [] => True
  | (k, v) :: rest => k ∉ rest.map Prod.fst ∧ WellFormed v ∧ WellFormedMembers rest
end

/-- The reference libraries. -/
def lib : Lib := ⟨GetHash, Serialize, Deserialize⟩

end Ref

/-! # Theorems -/

/-! ## Hexadecimal decoding: length and definedness -/

theorem HexToBytesLoop_length : ∀ (cs : List Char) (bs : List Nat),
    HexToBytesLoop cs = some bs → 2 * bs.length = cs.length
  | [], bs, h => by
    simp only [HexToBytesLoop, Option.some.injEq] at h
    subst h; rfl
  | [_], bs, h => by simp [HexToBytesLoop] at h
  | hi :: lo :: rest, bs, h => by
    simp only [HexToBytesLoop] at h
    cases hh : TCharToNibble hi with
    | none => simp [hh] at h
    | some a =>
      cases hl : TCharToNibble lo with
      | none => simp [hh, hl] at h
      | some b =>
        cases hr : HexToBytesLoop rest with
        | none => simp [hh, hl, hr] at h
        | some r =>
          simp only [hh, hl, hr, Option.some.injEq] at h
          subst h
          have := HexToBytesLoop_length rest r hr
          simp only [List.length_cons]
          omega

theorem HexToBytes_length (HexString : String) (bs : List Nat)
    (h : HexToBytes HexString = some bs) : bs.length = (HexString.length + 1) / 2 := by
  have hl : HexString.length = HexString.toList.length := rfl
  unfold HexToBytes at h
  cases hcs : HexString.toList with
  | nil =>
    rw [hcs] at h hl
    simp only [Option.some.injEq] at h
    subst h
    simp [hl]
  | cons c rest =>
    rw [hcs] at hl
    simp only [hcs] at h
    split at h
    · rename_i hodd
      cases hn : TCharToNibble c with
      | none => simp [hn] at h
      | some n =>
        cases hr : HexToBytesLoop rest with
        | none => simp [hn, hr] at h
        | some r =>
          simp only [hn, hr, Option.some.injEq] at h
          subst h
          have := HexToBytesLoop_length rest r hr
          simp only [List.length_cons] at hl hodd ⊢
          omega
    · rename_i hodd
      have := HexToBytesLoop_length _ bs h
      simp only [List.length_cons] at hl hodd this
      omega

theorem HexToBytesLoop_defined : ∀ (cs : List Char),
    (∀ c ∈ cs, (TCharToNibble c).isSome) → cs.length % 2 = 0 →
    ∃ bs, HexToBytesLoop cs = some bs
  | [], _, _ => ⟨[], rfl⟩
  | [_], _, h => by simp at h
  | hi :: lo :: rest, hx, h => by
    have h1 := hx hi (by simp)
    have h2 := hx lo (by simp)
    have h3 : ∀ c ∈ rest, (TCharToNibble c).isSome := fun c hc => hx c (by simp [hc])
    have h4 : rest.length % 2 = 0 := by
      simp only [List.length_cons] at h
      omega
    obtain ⟨r, hr⟩ := HexToBytesLoop_defined rest h3 h4
    obtain ⟨a, ha⟩ := Option.isSome_iff_exists.mp h1
    obtain ⟨b, hb⟩ := Option.isSome_iff_exists.mp h2
    exact ⟨(((a <<< 4) % 256) ||| b) :: r, by simp only [HexToBytesLoop, ha, hb, hr]⟩

theorem HexToBytes_defined (HexString : String)
    (hx : ∀ c ∈ HexString.toList, (TCharToNibble c).isSome) :
    ∃ bs, HexToBytes HexString = some bs := by
  unfold HexToBytes
  cases hcs : HexString.toList with
  | nil => exact ⟨[], rfl⟩
  | cons c rest =>
    rw [hcs] at hx
    simp only
    split
    · rename_i hodd
      have h3 : ∀ c ∈ rest, (TCharToNibble c).isSome := fun c hc => hx c (by simp [hc])
      have h4 : rest.length % 2 = 0 := by
        simp only [List.length_cons] at hodd
        omega
      obtain ⟨r, hr⟩ := HexToBytesLoop_defined rest h3 h4
      obtain ⟨a, ha⟩ := Option.isSome_iff_exists.mp (hx c (by simp))
      exact ⟨a :: r, by simp only [ha, hr]⟩
    · rename_i hodd
      exact HexToBytesLoop_defined _ hx (by omega)

/-! ## Base64: length of the encoding -/

theorem FBase64EncodeLoop_length : ∀ (Source : List Nat),
    (FBase64EncodeLoop Source).length = 4 * ((Source.length + 2) / 3)
  | [] => rfl
  | [_] => by simp [FBase64EncodeLoop]
  | [_, _] => by simp [FBase64EncodeLoop]
  | _ :: _ :: _ :: rest => by
    have := FBase64EncodeLoop_length rest
    simp only [FBase64EncodeLoop, List.length_cons, this]
    omega

theorem FBase64Encode_length (Source : List Nat) :
    (FBase64Encode Source).length = 4 * ((Source.length + 2) / 3) :=
  FBase64EncodeLoop_length Source

theorem HexToBase64_of_digest (HexString : String) (d : List Nat)
    (h : HexToBytes HexString = some d) (hd : d.length = 32) :
    HexToBase64 HexString = some (FBase64Encode d) := by
  simp [HexToBase64, h, hd, SourceSize]


/-! ## The reference hash: shape of its output -/

theorem Ref.be_length (n width : Nat) : (Ref.be n width).length = width := by
  simp [Ref.be]

theorem Ref.be_lt (n width : Nat) : ∀ b ∈ Ref.be n width, b < 256 := by
  intro b hb
  simp only [Ref.be, List.mem_map] at hb
  obtain ⟨i, _, rfl⟩ := hb
  exact Nat.mod_lt _ (by decide)

theorem Ref.SHA256_length (s : String) : (Ref.SHA256 s).length = 32 := by
  simp [Ref.SHA256, Ref.digest, Ref.be_length]

theorem Ref.SHA256_lt (s : String) : ∀ b ∈ Ref.SHA256 s, b < 256 := by
  intro b hb
  simp only [Ref.SHA256, Ref.digest, List.mem_append] at hb
  rcases hb with ((((((h | h) | h) | h) | h) | h) | h) | h <;> exact Ref.be_lt _ _ b h

set_option maxRecDepth 100000 in
theorem Ref.GetHash_test_vectors :
    Ref.GetHash "abc" = "ba7816bf8f01cfea414140de5dae2223b00361a396177a9cb410ff61f20015ad" ∧
    Ref.GetHash "" = "e3b0c44298fc1c149afbf4c8996fb92427ae41e4649b934ca495991b7852b855" := by
  decide

theorem Ref.TCharToNibble_NibbleToTChar : ∀ n, n < 16 →
    TCharToNibble (Ref.NibbleToTChar n) = some n := by
  decide

set_option maxRecDepth 100000 in
theorem Ref.byte_of_nibbles : ∀ b, b < 256 → ((b / 16) <<< 4) % 256 ||| (b % 16) = b := by
  decide

theorem Ref.HexToBytesLoop_HexDigits : ∀ (bs : List Nat), (∀ b ∈ bs, b < 256) →
    HexToBytesLoop (Ref.HexDigits bs) = some bs
  | [], _ => rfl
  | b :: rest, h => by
    have hb : b < 256 := h b (by simp)
    have hr := Ref.HexToBytesLoop_HexDigits rest (fun c hc => h c (by simp [hc]))
    have h1 := Ref.TCharToNibble_NibbleToTChar (b / 16) (by omega)
    have h2 := Ref.TCharToNibble_NibbleToTChar (b % 16) (by omega)
    simp only [Ref.HexDigits, HexToBytesLoop, h1, h2, hr, Ref.byte_of_nibbles b hb]

theorem Ref.HexDigits_length : ∀ (bs : List Nat), (Ref.HexDigits bs).length = 2 * bs.length
  | [] => rfl
  | _ :: rest => by
    simp only [Ref.HexDigits, List.length_cons, Ref.HexDigits_length rest]
    omega

theorem Ref.HexDigits_hex : ∀ (bs : List Nat), (∀ b ∈ bs, b < 256) →
    ∀ c ∈ Ref.HexDigits bs, (TCharToNibble c).isSome
  | [], _, c, hc => by simp [Ref.HexDigits] at hc
  | b :: rest, h, c, hc => by
    have hb : b < 256 := h b (by simp)
    simp only [Ref.HexDigits, List.mem_cons] at hc
    rcases hc with rfl | rfl | hc
    · rw [Ref.TCharToNibble_NibbleToTChar _ (by omega)]; rfl
    · rw [Ref.TCharToNibble_NibbleToTChar _ (by omega)]; rfl
    · exact Ref.HexDigits_hex rest (fun c hc => h c (by simp [hc])) c hc

theorem Ref.HexToBytes_BytesToHex (bs : List Nat) (h : ∀ b ∈ bs, b < 256) :
    HexToBytes (Ref.BytesToHex bs) = some bs := by
  have hloop := Ref.HexToBytesLoop_HexDigits bs h
  have hl := Ref.HexDigits_length bs
  unfold HexToBytes
  have hdata : (Ref.BytesToHex bs).toList = Ref.HexDigits bs := rfl
  rw [hdata]
  cases hcs : Ref.HexDigits bs with
  | nil =>
    rw [hcs] at hl
    simp only [List.length_nil] at hl
    have : bs = [] := List.length_eq_zero.mp (by omega)
    simp [this]
  | cons c rest =>
    rw [hcs] at hl hloop
    simp only
    rw [if_neg (by omega)]
    exact hloop

theorem Ref.GetHash_hex (s : String) :
    ∀ c ∈ (Ref.GetHash s).toList, (TCharToNibble c).isSome :=
  Ref.HexDigits_hex _ (Ref.SHA256_lt s)

theorem Ref.GetHash_length (s : String) : (Ref.GetHash s).length = 64 := by
  show (Ref.HexDigits (Ref.SHA256 s)).length = 64
  rw [Ref.HexDigits_length, Ref.SHA256_length]

theorem Ref.HexToBytes_GetHash (s : String) :
    HexToBytes (Ref.lib.GetHash s) = some (Ref.SHA256 s) :=
  Ref.HexToBytes_BytesToHex _ (Ref.SHA256_lt s)

/-! ## Base64 is injective on byte strings -/

theorem SextetValue_getD : ∀ i, i < 64 →
    SextetValue (EncodingAlphabet.getD i 'A') = i ∧ EncodingAlphabet.getD i 'A' ≠ '=' := by
  decide

theorem EncodeSextet_spec (t k : Nat) :
    SextetValue (EncodeSextet t k) = t / 2 ^ (6 * k) % 64 ∧ EncodeSextet t k ≠ '=' := by
  have h : (t >>> (6 * k)) &&& 0x3F = t / 2 ^ (6 * k) % 64 := by
    rw [Nat.shiftRight_eq_div_pow]
    exact Nat.and_pow_two_sub_one_eq_mod _ 6
  unfold EncodeSextet
  rw [h]
  exact SextetValue_getD _ (Nat.mod_lt _ (by decide))

theorem ByteTriplet_eq (A B C : Nat) (hB : B < 256) (hC : C < 256) :
    (A <<< 16) ||| (B <<< 8) ||| C = 65536 * A + 256 * B + C := by
  rw [Nat.shiftLeft_eq, Nat.shiftLeft_eq]
  have h1 : A * 2 ^ 16 ||| B * 2 ^ 8 = 2 ^ 8 * (256 * A + B) := by
    have := Nat.mul_add_lt_is_or (i := 16) (b := B * 2 ^ 8) (by omega) A
    rw [Nat.mul_comm A, ← this]
    omega
  rw [h1, ← Nat.mul_add_lt_is_or (i := 8) (by omega)]
  omega

theorem Base64Bytes_FBase64EncodeLoop : ∀ (bs : List Nat), (∀ b ∈ bs, b < 256) →
    Base64Bytes (FBase64EncodeLoop bs) = bs
  | [], _ => rfl
  | [A], h => by
    have hA : A < 256 := h A (by simp)
    have ht : A <<< 16 = 65536 * A := by
      rw [Nat.shiftLeft_eq]
      omega
    have e3 := EncodeSextet_spec (65536 * A) 3
    have e2 := EncodeSextet_spec (65536 * A) 2
    simp only [FBase64EncodeLoop, Base64Bytes, if_true, ht, e3.1, e2.1]
    congr 1
    omega
  | [A, B], h => by
    have hA : A < 256 := h A (by simp)
    have hB : B < 256 := h B (by simp)
    have ht : (A <<< 16) ||| (B <<< 8) = 65536 * A + 256 * B := by
      have := ByteTriplet_eq A B 0 hB (by decide)
      simpa using this
    have e3 := EncodeSextet_spec (65536 * A + 256 * B) 3
    have e2 := EncodeSextet_spec (65536 * A + 256 * B) 2
    have e1 := EncodeSextet_spec (65536 * A + 256 * B) 1
    simp only [FBase64EncodeLoop, Base64Bytes, ht, if_true, e3.1, e2.1, e1.1, if_neg e1.2]
    congr 1
    · omega
    · congr 1
      omega
  | A :: B :: C :: rest, h => by
    have hA : A < 256 := h A (by simp)
    have hB : B < 256 := h B (by simp)
    have hC : C < 256 := h C (by simp)
    have hr := Base64Bytes_FBase64EncodeLoop rest (fun c hc => h c (by simp [hc]))
    have ht := ByteTriplet_eq A B C hB hC
    have e3 := EncodeSextet_spec (65536 * A + 256 * B + C) 3
    have e2 := EncodeSextet_spec (65536 * A + 256 * B + C) 2
    have e1 := EncodeSextet_spec (65536 * A + 256 * B + C) 1
    have e0 := EncodeSextet_spec (65536 * A + 256 * B + C) 0
    simp only [FBase64EncodeLoop, Base64Bytes, ht, e3.1, e2.1, e1.1, e0.1, if_neg e1.2,
      if_neg e0.2, hr]
    congr 1
    · omega
    · congr 1
      · omega
      · congr 1
        omega

theorem FBase64Encode_injective (a b : List Nat) (ha : ∀ x ∈ a, x < 256)
    (hb : ∀ x ∈ b, x < 256) (h : FBase64Encode a = FBase64Encode b) : a = b := by
  have h1 : FBase64EncodeLoop a = FBase64EncodeLoop b := congrArg String.data h
  rw [← Base64Bytes_FBase64EncodeLoop a ha, ← Base64Bytes_FBase64EncodeLoop b hb, h1]

theorem GenerateAuthenticationKey_eq_of_digest (L : Lib) (SHA256 : String → List Nat)
    (hlen : ∀ x, (SHA256 x).length = 32)
    (hhex : ∀ x, HexToBytes (L.GetHash x) = some (SHA256 x))
    (Password Salt Challenge : String) :
    GenerateAuthenticationKey L Password Salt Challenge =
      some (FBase64Encode (SHA256 (FBase64Encode (SHA256 (Password ++ Salt)) ++ Challenge))) := by
  simp only [GenerateAuthenticationKey,
    HexToBase64_of_digest _ _ (hhex _) (hlen _)]

/-- C1: with `SHA256` the raw 32-byte digest that `HexToBytes` recovers from the rendered hash,
the key is Base64(SHA256(Base64(SHA256(password ++ salt)) ++ challenge)): the second round hashes
the Base64 text of the first digest followed by the challenge. -/
theorem GenerateAuthenticationKey_two_rounds (L : Lib) (SHA256 : String → List Nat)
    (hlen : ∀ x, (SHA256 x).length = 32)
    (hhex : ∀ x, HexToBytes (L.GetHash x) = some (SHA256 x))
    (Password Salt Challenge : String) :
    GenerateAuthenticationKey L Password Salt Challenge =
      some (FBase64Encode (SHA256 (FBase64Encode (SHA256 (Password ++ Salt)) ++ Challenge))) :=
  GenerateAuthenticationKey_eq_of_digest L SHA256 hlen hhex Password Salt Challenge

set_option maxRecDepth 100000 in
theorem GenerateAuthenticationKey_two_rounds_witness :
    (∀ x, (Ref.SHA256 x).length = 32) ∧
    (∀ x, HexToBytes (Ref.lib.GetHash x) = some (Ref.SHA256 x)) ∧
    GenerateAuthenticationKey Ref.lib "supersecretpassword"
        "lM1GncleQOaCu9lT1yeUZhFYnqhsLLP1G5lAGo3ixaI="
        "+IxH4CnCiqpX1rM9scsNynZzbOe4KhDeYcTNS5PU40Y=" =
      some (FBase64Encode (Ref.SHA256 (FBase64Encode (Ref.SHA256
        ("supersecretpassword" ++ "lM1GncleQOaCu9lT1yeUZhFYnqhsLLP1G5lAGo3ixaI=")) ++
        "+IxH4CnCiqpX1rM9scsNynZzbOe4KhDeYcTNS5PU40Y="))) ∧
    FBase64Encode (Ref.SHA256 (FBase64Encode (Ref.SHA256
        ("supersecretpassword" ++ "lM1GncleQOaCu9lT1yeUZhFYnqhsLLP1G5lAGo3ixaI=")) ++
        "+IxH4CnCiqpX1rM9scsNynZzbOe4KhDeYcTNS5PU40Y=")) =
      "ZJWIFoGJc1pEry3pX/J1MlzC4DN5aM7xHTcTk4KTCIk=" :=
  ⟨Ref.SHA256_length, Ref.HexToBytes_GetHash,
    GenerateAuthenticationKey_two_rounds Ref.lib Ref.SHA256 Ref.SHA256_length
      Ref.HexToBytes_GetHash _ _ _,
    by decide⟩

theorem GenerateAuthenticationKey_decodes (L : Lib) (hhash : RendersDigestAs64HexDigits L)
    (Password Salt Challenge : String) :
    ∃ d1 d2 : List Nat,
      HexToBytes (L.GetHash (Password ++ Salt)) = some d1 ∧ d1.length = 32 ∧
      HexToBase64 (L.GetHash (Password ++ Salt)) = some (FBase64Encode d1) ∧
      HexToBytes (L.GetHash (FBase64Encode d1 ++ Challenge)) = some d2 ∧ d2.length = 32 ∧
      GenerateAuthenticationKey L Password Salt Challenge = some (FBase64Encode d2) := by
  obtain ⟨d1, h1⟩ := HexToBytes_defined _ (hhash (Password ++ Salt)).2
  have l1 : d1.length = 32 := by
    rw [HexToBytes_length _ _ h1, (hhash (Password ++ Salt)).1]
  obtain ⟨d2, h2⟩ := HexToBytes_defined _ (hhash (FBase64Encode d1 ++ Challenge)).2
  have l2 : d2.length = 32 := by
    rw [HexToBytes_length _ _ h2, (hhash (FBase64Encode d1 ++ Challenge)).1]
  have b1 := HexToBase64_of_digest _ _ h1 l1
  have b2 := HexToBase64_of_digest _ _ h2 l2
  exact ⟨d1, d2, h1, l1, b1, h2, l2, by simp only [GenerateAuthenticationKey, b1, b2]⟩

theorem GenerateAuthenticationKey_defined (L : Lib) (hhash : RendersDigestAs64HexDigits L)
    (Password Salt Challenge : String) :
    ∃ Key, GenerateAuthenticationKey L Password Salt Challenge = some Key := by
  obtain ⟨_, d2, _, _, _, _, _, h⟩ :=
    GenerateAuthenticationKey_decodes L hhash Password Salt Challenge
  exact ⟨_, h⟩

theorem Ref.lib_renders (x : String) :
    (Ref.lib.GetHash x).length = 64 ∧
      ∀ c ∈ (Ref.lib.GetHash x).toList, (TCharToNibble c).isSome :=
  ⟨Ref.GetHash_length x, Ref.GetHash_hex x⟩

/-- C10: when every digest is rendered as 64 hexadecimal digits, both calls of `HexToBase64`
made by `GenerateAuthenticationKey` decode exactly 32 bytes, which all land inside the 32-byte
buffer, and each Base64 output has 44 characters; a hexadecimal string of more than 64 digits
decodes to more bytes than the buffer holds. -/
theorem HexToBase64_within_buffer (L : Lib) (hhash : RendersDigestAs64HexDigits L)
    (Password Salt Challenge : String) :
    (∃ d1 d2 : List Nat,
      HexToBytes (L.GetHash (Password ++ Salt)) = some d1 ∧
      d1.length = 32 ∧ d1.length ≤ SourceSize ∧
      HexToBase64 (L.GetHash (Password ++ Salt)) = some (FBase64Encode d1) ∧
      (FBase64Encode d1).length = 44 ∧
      HexToBytes (L.GetHash (FBase64Encode d1 ++ Challenge)) = some d2 ∧
      d2.length = 32 ∧ d2.length ≤ SourceSize ∧
      GenerateAuthenticationKey L Password Salt Challenge = some (FBase64Encode d2) ∧
      (FBase64Encode d2).length = 44) ∧
    (∀ HexString : String, (∀ c ∈ HexString.toList, (TCharToNibble c).isSome) →
      64 < HexString.length →
      ∃ bs, HexToBytes HexString = some bs ∧ SourceSize < bs.length ∧
        HexToBase64 HexString = none) := by
  constructor
  · obtain ⟨d1, d2, h1, l1, b1, h2, l2, hk⟩ :=
      GenerateAuthenticationKey_decodes L hhash Password Salt Challenge
    refine ⟨d1, d2, h1, l1, ?_, b1, ?_, h2, l2, ?_, hk, ?_⟩
    · rw [l1]; decide
    · rw [FBase64Encode_length, l1]
    · rw [l2]; decide
    · rw [FBase64Encode_length, l2]
  · intro HexString hx hlen
    obtain ⟨bs, h⟩ := HexToBytes_defined _ hx
    have hl := HexToBytes_length _ _ h
    have hgt : SourceSize < bs.length := by
      rw [hl]
      show 32 < _
      omega
    refine ⟨bs, h, hgt, ?_⟩
    simp only [HexToBase64, h]
    rw [if_neg (by omega)]

theorem HexToBase64_within_buffer_witness :
    RendersDigestAs64HexDigits Ref.lib ∧
    (∃ d1 d2 : List Nat,
      HexToBytes (Ref.lib.GetHash ("password" ++ "xyz")) = some d1 ∧
      d1.length = 32 ∧ d1.length ≤ SourceSize ∧
      HexToBase64 (Ref.lib.GetHash ("password" ++ "xyz")) = some (FBase64Encode d1) ∧
      (FBase64Encode d1).length = 44 ∧
      HexToBytes (Ref.lib.GetHash (FBase64Encode d1 ++ "abc")) = some d2 ∧
      d2.length = 32 ∧ d2.length ≤ SourceSize ∧
      GenerateAuthenticationKey Ref.lib "password" "xyz" "abc" = some (FBase64Encode d2) ∧
      (FBase64Encode d2).length = 44) :=
  ⟨Ref.lib_renders,
    (HexToBase64_within_buffer Ref.lib Ref.lib_renders "password" "xyz" "abc").1⟩

theorem TCharToNibble_lt (c : Char) (n : Nat) (h : TCharToNibble c = some n) : n < 16 := by
  unfold TCharToNibble at h
  have e0 : '0'.toNat = 48 := rfl
  have e9 : '9'.toNat = 57 := rfl
  have eA : 'A'.toNat = 65 := rfl
  have eF : 'F'.toNat = 70 := rfl
  have ea : 'a'.toNat = 97 := rfl
  have ef : 'f'.toNat = 102 := rfl
  split at h
  · rename_i hc
    have h1 : c.toNat ≤ '9'.toNat := hc.2
    simp only [Option.some.injEq] at h
    omega
  · split at h
    · rename_i hc
      have h1 : c.toNat ≤ 'F'.toNat := hc.2
      simp only [Option.some.injEq] at h
      omega
    · split at h
      · rename_i hc
        have h1 : c.toNat ≤ 'f'.toNat := hc.2
        simp only [Option.some.injEq] at h
        omega
      · simp at h

theorem HexToBytesLoop_lt : ∀ (cs : List Char) (bs : List Nat),
    HexToBytesLoop cs = some bs → ∀ b ∈ bs, b < 256
  | [], bs, h => by
    simp only [HexToBytesLoop, Option.some.injEq] at h
    subst h
    simp
  | [_], bs, h => by simp [HexToBytesLoop] at h
  | hi :: lo :: rest, bs, h => by
    simp only [HexToBytesLoop] at h
    cases hh : TCharToNibble hi with
    | none => simp [hh] at h
    | some a =>
      cases hl : TCharToNibble lo with
      | none => simp [hh, hl] at h
      | some l =>
        cases hr : HexToBytesLoop rest with
        | none => simp [hh, hl, hr] at h
        | some r =>
          simp only [hh, hl, hr, Option.some.injEq] at h
          subst h
          intro b hb
          rcases List.mem_cons.mp hb with rfl | hb
          · have hl16 := TCharToNibble_lt lo l hl
            exact Nat.or_lt_two_pow (n := 8) (Nat.mod_lt _ (by decide)) (by omega)
          · exact HexToBytesLoop_lt rest r hr b hb

theorem HexToBytes_lt (HexString : String) (bs : List Nat)
    (h : HexToBytes HexString = some bs) : ∀ b ∈ bs, b < 256 := by
  unfold HexToBytes at h
  cases hcs : HexString.toList with
  | nil =>
    simp only [hcs, Option.some.injEq] at h
    subst h
    simp
  | cons c rest =>
    simp only [hcs] at h
    split at h
    · cases hn : TCharToNibble c with
      | none => simp [hn] at h
      | some n =>
        cases hr : HexToBytesLoop rest with
        | none => simp [hn, hr] at h
        | some r =>
          simp only [hn, hr, Option.some.injEq] at h
          subst h
          intro b hb
          rcases List.mem_cons.mp hb with rfl | hb
          · have := TCharToNibble_lt c b hn
            omega
          · exact HexToBytesLoop_lt rest r hr b hb
    · exact HexToBytesLoop_lt _ bs h

theorem String_append_right_cancel (a b c : String) (h : a ++ c = b ++ c) : a = b := by
  have := congrArg String.data h
  simp only [String.data_append] at this
  exact String.ext (List.append_cancel_right this)

theorem String_append_left_cancel (a b c : String) (h : a ++ b = a ++ c) : b = c := by
  have := congrArg String.data h
  simp only [String.data_append] at this
  exact String.ext (List.append_cancel_left this)

/-- C5: for a fixed password, when SHA-256 has no collision among the strings hashed, two
different salts give different keys for the same challenge, and two different challenges give
different keys for the same salt. -/
theorem GenerateAuthenticationKey_sensitive (L : Lib) (SHA256 : String → List Nat)
    (hlen : ∀ x, (SHA256 x).length = 32)
    (hhex : ∀ x, HexToBytes (L.GetHash x) = some (SHA256 x))
    (Password Salt1 Salt2 Challenge1 Challenge2 : String)
    (hsha : CollisionFree SHA256
      [Password ++ Salt1, Password ++ Salt2,
       FBase64Encode (SHA256 (Password ++ Salt1)) ++ Challenge1,
       FBase64Encode (SHA256 (Password ++ Salt2)) ++ Challenge1,
       FBase64Encode (SHA256 (Password ++ Salt1)) ++ Challenge2]) :
    (Salt1 ≠ Salt2 →
      GenerateAuthenticationKey L Password Salt1 Challenge1 ≠
        GenerateAuthenticationKey L Password Salt2 Challenge1) ∧
    (Challenge1 ≠ Challenge2 →
      GenerateAuthenticationKey L Password Salt1 Challenge1 ≠
        GenerateAuthenticationKey L Password Salt1 Challenge2) := by
  have hbyte : ∀ x, ∀ b ∈ SHA256 x, b < 256 := fun x => HexToBytes_lt _ _ (hhex x)
  have hkey := GenerateAuthenticationKey_eq_of_digest L SHA256 hlen hhex Password
  constructor
  · intro hne heq
    rw [hkey, hkey] at heq
    have h1 := FBase64Encode_injective _ _ (hbyte _) (hbyte _) (Option.some.inj heq)
    have h2 := hsha _ (by simp) _ (by simp) h1
    have h3 := FBase64Encode_injective _ _ (hbyte _) (hbyte _)
      (String_append_right_cancel _ _ _ h2)
    have h4 := hsha _ (by simp) _ (by simp) h3
    exact hne (String_append_left_cancel _ _ _ h4)
  · intro hne heq
    rw [hkey, hkey] at heq
    have h1 := FBase64Encode_injective _ _ (hbyte _) (hbyte _) (Option.some.inj heq)
    have h2 := hsha _ (by simp) _ (by simp) h1
    exact hne (String_append_left_cancel _ _ _ h2)

set_option maxRecDepth 1000000 in
theorem Ref.CollisionFree_example :
    CollisionFree Ref.SHA256
      ["password" ++ "salt1", "password" ++ "salt2",
       FBase64Encode (Ref.SHA256 ("password" ++ "salt1")) ++ "challenge1",
       FBase64Encode (Ref.SHA256 ("password" ++ "salt2")) ++ "challenge1",
       FBase64Encode (Ref.SHA256 ("password" ++ "salt1")) ++ "challenge2"] := by
  unfold CollisionFree
  decide

theorem GenerateAuthenticationKey_sensitive_witness :
    (∀ x, (Ref.SHA256 x).length = 32) ∧
    (∀ x, HexToBytes (Ref.lib.GetHash x) = some (Ref.SHA256 x)) ∧
    CollisionFree Ref.SHA256
      ["password" ++ "salt1", "password" ++ "salt2",
       FBase64Encode (Ref.SHA256 ("password" ++ "salt1")) ++ "challenge1",
       FBase64Encode (Ref.SHA256 ("password" ++ "salt2")) ++ "challenge1",
       FBase64Encode (Ref.SHA256 ("password" ++ "salt1")) ++ "challenge2"] ∧
    GenerateAuthenticationKey Ref.lib "password" "salt1" "challenge1" ≠
      GenerateAuthenticationKey Ref.lib "password" "salt2" "challenge1" ∧
    GenerateAuthenticationKey Ref.lib "password" "salt1" "challenge1" ≠
      GenerateAuthenticationKey Ref.lib "password" "salt1" "challenge2" :=
  have h := GenerateAuthenticationKey_sensitive Ref.lib Ref.SHA256 Ref.SHA256_length
    Ref.HexToBytes_GetHash "password" "salt1" "salt2" "challenge1" "challenge2"
    Ref.CollisionFree_example
  ⟨Ref.SHA256_length, Ref.HexToBytes_GetHash, Ref.CollisionFree_example,
    h.1 (by decide), h.2 (by decide)⟩

/-! ## Documents -/

theorem TMapAdd_of_not_mem {α : Type} : ∀ (m : List (String × α)) (Key : String) (Value : α),
    Key ∉ m.map Prod.fst → TMapAdd m Key Value = m ++ [(Key, Value)]
  | [], _, _, _ => rfl
  | (k, v) :: rest, Key, Value, h => by
    have hk : k ≠ Key := fun e => h (by simp [e])
    have hr : Key ∉ rest.map Prod.fst := fun e => h (by simp [e])
    simp only [TMapAdd, if_neg hk, TMapAdd_of_not_mem rest Key Value hr, List.cons_append]

theorem foldl_SetStringField : ∀ (fields : List (String × String)) (acc : FJsonObject),
    (fields.map Prod.fst).Nodup → (∀ k ∈ fields.map Prod.fst, k ∉ acc.map Prod.fst) →
    fields.foldl (fun o n => SetStringField o n.1 n.2) acc =
      acc ++ fields.map fun n => (n.1, FJsonValue.String n.2)
  | [], acc, _, _ => by simp
  | (k, v) :: rest, acc, hnd, hdis => by
    have hk : k ∉ acc.map Prod.fst := hdis k (by simp)
    have hnd2 : (rest.map Prod.fst).Nodup := (List.nodup_cons.mp hnd).2
    have hkr : k ∉ rest.map Prod.fst := (List.nodup_cons.mp hnd).1
    have hdis2 : ∀ j ∈ rest.map Prod.fst,
        j ∉ (acc ++ [(k, FJsonValue.String v)]).map Prod.fst := by
      intro j hj hmem
      simp only [List.map_append, List.map_cons, List.map_nil, List.mem_append,
        List.mem_singleton] at hmem
      rcases hmem with hmem | rfl
      · exact hdis j (by simp [hj]) hmem
      · exact hkr hj
    simp only [List.foldl_cons, SetStringField, TMapAdd_of_not_mem acc k _ hk]
    have := foldl_SetStringField rest (acc ++ [(k, FJsonValue.String v)]) hnd2 hdis2
    simp only [SetStringField] at this
    rw [this]
    simp

theorem FormJsonMessage_eq (L : Lib) (OpCode : EClientRequest) (Data : FJsonObject) :
    FormJsonMessage L OpCode Data =
      L.Serialize [("op", FJsonValue.Number OpCode.toInt), ("d", FJsonValue.Object Data)] := by
  simp [FormJsonMessage, SetNumberField, SetObjectField, TMapAdd]

/-! ## The reference JSON reader gives back what the reference writer wrote -/

namespace Ref

theorem digitChar_spec : ∀ d, d < 10 →
    (digitChar d).isDigit = true ∧ (digitChar d).toNat - '0'.toNat = d ∧
    isWs (digitChar d) = false ∧ digitChar d ≠ '{' ∧ digitChar d ≠ '[' ∧ digitChar d ≠ '"' ∧
    digitChar d ≠ 't' ∧ digitChar d ≠ 'f' ∧ digitChar d ≠ 'n' ∧ digitChar d ≠ '-' ∧
    digitChar d ≠ ']' ∧ digitChar d ≠ '}' := by
  decide

theorem natDigits_lt : ∀ (fuel n : Nat), ∀ d ∈ natDigits fuel n, d < 10
  | 0, _, d, h => by simp [natDigits] at h
  | fuel + 1, n, d, h => by
    unfold natDigits at h
    split at h
    · simp only [List.mem_singleton] at h
      omega
    · rcases List.mem_append.mp h with h | h
      · exact natDigits_lt fuel (n / 10) d h
      · simp only [List.mem_singleton] at h
        omega

theorem natDigits_ne_nil (fuel n : Nat) : natDigits (fuel + 1) n ≠ [] := by
  unfold natDigits
  split <;> simp

theorem natDigits_value : ∀ (fuel n acc : Nat), n < fuel →
    (natDigits fuel n).foldl (fun a d => 10 * a + d) acc =
      acc * 10 ^ (natDigits fuel n).length + n
  | 0, _, _, h => by omega
  | fuel + 1, n, acc, h => by
    unfold natDigits
    split
    · simp only [List.foldl_cons, List.foldl_nil, List.length_singleton, pow_one]
      omega
    · have ih := natDigits_value fuel (n / 10) acc (by omega)
      simp only [List.foldl_append, List.foldl_cons, List.foldl_nil, ih, List.length_append,
        List.length_singleton, pow_succ]
      have hn := Nat.div_add_mod n 10
      generalize 10 ^ (natDigits fuel (n / 10)).length = P at *
      have : 10 * (acc * P + n / 10) = acc * (P * 10) + 10 * (n / 10) := by ring
      omega

theorem readDigits_digits : ∀ (ds : List Nat) (acc : Nat) (rest : List Char),
    (∀ d ∈ ds, d < 10) → NoDigitHead rest →
    readDigits acc (ds.map digitChar ++ rest) = (ds.foldl (fun a d => 10 * a + d) acc, rest)
  | [], acc, rest, _, hrest => by
    cases rest with
    | nil => rfl
    | cons c tl =>
      have := hrest c tl rfl
      simp [readDigits, this]
  | d :: ds, acc, rest, hds, hrest => by
    have hd := digitChar_spec d (hds d (by simp))
    have ih := readDigits_digits ds (10 * acc + d) rest (fun x hx => hds x (by simp [hx])) hrest
    rw [List.map_cons, List.cons_append, readDigits]
    simp only [hd.1, if_true, hd.2.1, List.foldl_cons]
    exact ih

theorem readDigits_writeNat (n : Nat) (rest : List Char) (hrest : NoDigitHead rest) :
    readDigits 0 (writeNat n ++ rest) = (n, rest) := by
  unfold writeNat
  rw [readDigits_digits _ 0 rest (natDigits_lt _ _) hrest, natDigits_value _ _ _ (by omega)]
  simp

theorem writeNat_head (n : Nat) :
    ∃ d tl, d < 10 ∧ writeNat n = digitChar d :: tl := by
  unfold writeNat
  cases h : natDigits (n + 1) n with
  | nil => exact absurd h (natDigits_ne_nil n n)
  | cons d ds =>
    refine ⟨d, ds.map digitChar, ?_, rfl⟩
    exact natDigits_lt (n + 1) n d (by simp [h])

theorem readNumber_writeInt (n : Int) (rest : List Char) (hrest : NoDigitHead rest) :
    readNumber (writeInt n ++ rest) = some (FJsonValue.Number n, rest) := by
  cases n with
  | ofNat m =>
    obtain ⟨d, tl, hd, htl⟩ := writeNat_head m
    have hs := digitChar_spec d hd
    have hr := readDigits_writeNat m rest hrest
    simp only [writeInt]
    rw [htl] at hr ⊢
    simp only [List.cons_append] at hr ⊢
    simp only [readNumber, if_neg hs.2.2.2.2.2.2.2.2.2.1, hs.1, if_true, hr]
    rfl
  | negSucc m =>
    obtain ⟨d, tl, hd, htl⟩ := writeNat_head (m + 1)
    have hs := digitChar_spec d hd
    have hr := readDigits_writeNat (m + 1) rest hrest
    simp only [writeInt]
    rw [htl] at hr ⊢
    simp only [List.cons_append] at hr ⊢
    simp only [readNumber, if_true, hs.1, hr]
    rfl

theorem readString_quote (acc cs : List Char) :
    readString acc ('"' :: cs) = some (String.mk acc.reverse, cs) := by
  cases cs <;> simp [readString]

theorem readString_escape (acc rest : List Char) (e d : Char) (h : readEscape e = some d) :
    readString acc ('\\' :: e :: rest) = readString (d :: acc) rest := by
  simp [readString, h]

theorem readString_plain (acc cs : List Char) (c : Char) (h1 : c ≠ '"') (h2 : c ≠ '\\') :
    readString acc (c :: cs) = readString (c :: acc) cs := by
  cases cs <;> simp [readString, h1, h2]

theorem readString_writeChar (c : Char) (acc tail : List Char) :
    readString acc (writeChar c ++ tail) = readString (c :: acc) tail := by
  unfold writeChar
  split
  · rename_i h
    subst h
    exact readString_escape acc tail _ _ (by decide)
  · split
    · rename_i h
      subst h
      exact readString_escape acc tail _ _ (by decide)
    · split
      · rename_i h
        subst h
        exact readString_escape acc tail _ _ (by decide)
      · split
        · rename_i h
          subst h
          exact readString_escape acc tail _ _ (by decide)
        · split
          · rename_i h
            subst h
            exact readString_escape acc tail _ _ (by decide)
          · rename_i h1 h2 h3 h4 h5
            exact readString_plain acc tail c h1 h2

theorem readString_writeChars : ∀ (s acc rest : List Char),
    readString acc (s.flatMap writeChar ++ '"' :: rest) =
      some (String.mk (acc.reverse ++ s), rest)
  | [], acc, rest => by
    rw [List.flatMap_nil, List.nil_append, readString_quote]
    simp
  | c :: s, acc, rest => by
    rw [List.flatMap_cons, List.append_assoc, readString_writeChar,
      readString_writeChars s (c :: acc) rest]
    simp

theorem readString_writeString (s : String) (rest : List Char) :
    ∃ tl, writeString s ++ rest = '"' :: tl ∧ readString [] tl = some (s, rest) := by
  refine ⟨s.toList.flatMap writeChar ++ '"' :: rest, ?_, ?_⟩
  · simp [writeString]
  · rw [readString_writeChars]
    rfl

theorem skipWs_cons (c : Char) (t : List Char) (h : isWs c = false) :
    skipWs (c :: t) = c :: t := by
  simp [skipWs, h]

theorem read_null (f : Nat) (rest : List Char) :
    read (f + 1) Mode.value ('n' :: 'u' :: 'l' :: 'l' :: rest) = some (FJsonValue.Null, rest) := by
  simp [read, skipWs, isWs]

theorem read_true (f : Nat) (rest : List Char) :
    read (f + 1) Mode.value ('t' :: 'r' :: 'u' :: 'e' :: rest) =
      some (FJsonValue.Boolean true, rest) := by
  simp [read, skipWs, isWs]

theorem read_false (f : Nat) (rest : List Char) :
    read (f + 1) Mode.value ('f' :: 'a' :: 'l' :: 's' :: 'e' :: rest) =
      some (FJsonValue.Boolean false, rest) := by
  simp [read, skipWs, isWs]

theorem read_string (f : Nat) (t rest : List Char) (s : String)
    (h : readString [] t = some (s, rest)) :
    read (f + 1) Mode.value ('"' :: t) = some (FJsonValue.String s, rest) := by
  simp [read, skipWs, isWs, h]

theorem read_number (f : Nat) (c : Char) (t : List Char) (hws : isWs c = false)
    (h1 : c ≠ '{') (h2 : c ≠ '[') (h3 : c ≠ '"') (h4 : c ≠ 't') (h5 : c ≠ 'f') (h6 : c ≠ 'n') :
    read (f + 1) Mode.value (c :: t) = readNumber (c :: t) := by
  simp [read, skipWs_cons c t hws, h1, h2, h3, h4, h5, h6]

theorem read_object_nil (f : Nat) (rest : List Char) :
    read (f + 1) Mode.value ('{' :: '}' :: rest) = some (FJsonValue.Object [], rest) := by
  simp [read, skipWs, isWs]

theorem read_object (f : Nat) (t : List Char) :
    read (f + 1) Mode.value ('{' :: '"' :: t) = read f (Mode.members []) ('"' :: t) := by
  simp [read, skipWs, isWs]

theorem read_array_nil (f : Nat) (rest : List Char) :
    read (f + 1) Mode.value ('[' :: ']' :: rest) = some (FJsonValue.Array [], rest) := by
  simp [read, skipWs, isWs]

theorem read_array (f : Nat) (c : Char) (t : List Char) (hws : isWs c = false) (h : c ≠ ']') :
    read (f + 1) Mode.value ('[' :: c :: t) = read f (Mode.elements []) (c :: t) := by
  have h0 : skipWs ('[' :: c :: t) = '[' :: c :: t := skipWs_cons _ _ (by decide)
  simp [read, h0, skipWs_cons c t hws, h]

theorem read_members_more (f : Nat) (acc : List (String × FJsonValue)) (t t2 t4 : List Char)
    (k : String) (v : FJsonValue)
    (hk : readString [] t = some (k, ':' :: t2))
    (hv : read f Mode.value t2 = some (v, ',' :: t4)) :
    read (f + 1) (Mode.members acc) ('"' :: t) = read f (Mode.members (TMapAdd acc k v)) t4 := by
  simp [read, skipWs, isWs, hk, hv]

theorem read_members_last (f : Nat) (acc : List (String × FJsonValue)) (t t2 t4 : List Char)
    (k : String) (v : FJsonValue)
    (hk : readString [] t = some (k, ':' :: t2))
    (hv : read f Mode.value t2 = some (v, '}' :: t4)) :
    read (f + 1) (Mode.members acc) ('"' :: t) =
      some (FJsonValue.Object (TMapAdd acc k v), t4) := by
  simp [read, skipWs, isWs, hk, hv]

theorem read_elements_more (f : Nat) (acc : List FJsonValue) (cs t : List Char)
    (v : FJsonValue) (hv : read f Mode.value cs = some (v, ',' :: t)) :
    read (f + 1) (Mode.elements acc) cs = read f (Mode.elements (acc ++ [v])) t := by
  simp [read, skipWs, isWs, hv]

theorem read_elements_last (f : Nat) (acc : List FJsonValue) (cs t : List Char)
    (v : FJsonValue) (hv : read f Mode.value cs = some (v, ']' :: t)) :
    read (f + 1) (Mode.elements acc) cs = some (FJsonValue.Array (acc ++ [v]), t) := by
  simp [read, skipWs, isWs, hv]

theorem writeValue_head (v : FJsonValue) :
    ∃ c tl, writeValue v = c :: tl ∧ isWs c = false ∧ c ≠ ']' := by
  cases v with
  | Null => exact ⟨'n', ['u', 'l', 'l'], by simp [writeValue], by decide, by decide⟩
  | Boolean b =>
    cases b
    · exact ⟨'f', ['a', 'l', 's', 'e'], by simp [writeValue], by decide, by decide⟩
    · exact ⟨'t', ['r', 'u', 'e'], by simp [writeValue], by decide, by decide⟩
  | Number n =>
    cases n with
    | ofNat m =>
      obtain ⟨d, tl, hd, htl⟩ := writeNat_head m
      have hs := digitChar_spec d hd
      exact ⟨_, tl, by simp [writeValue, writeInt, htl], hs.2.2.1, hs.2.2.2.2.2.2.2.2.2.2.1⟩
    | negSucc m =>
      exact ⟨'-', writeNat (m + 1), by simp [writeValue, writeInt], by decide, by decide⟩
  | String s =>
    exact ⟨'"', s.toList.flatMap writeChar ++ ['"'], by simp [writeValue, writeString],
      by decide, by decide⟩
  | Array a =>
    exact ⟨'[', writeElements a ++ [']'], by simp [writeValue], by decide, by decide⟩
  | Object o =>
    exact ⟨'{', writeMembers o ++ ['}'], by simp [writeValue], by decide, by decide⟩

theorem writeElements_head (e : FJsonValue) (es : List FJsonValue) :
    ∃ c tl, writeElements (e :: es) = c :: tl ∧ isWs c = false ∧ c ≠ ']' := by
  obtain ⟨c, tl, h, hw, hc⟩ := writeValue_head e
  cases es with
  | nil => exact ⟨c, tl, by simp [writeElements, h], hw, hc⟩
  | cons w rest =>
    exact ⟨c, tl ++ ',' :: writeElements (w :: rest), by simp [writeElements, h], hw, hc⟩

theorem writeMembers_head (m : String × FJsonValue) (ms : List (String × FJsonValue)) :
    ∃ tl, writeMembers (m :: ms) = '"' :: tl := by
  obtain ⟨k, v⟩ := m
  cases ms with
  | nil =>
    exact ⟨k.toList.flatMap writeChar ++ '"' :: ':' :: writeValue v,
      by simp [writeMembers, writeString]⟩
  | cons w rest =>
    exact ⟨k.toList.flatMap writeChar ++
        '"' :: ':' :: (writeValue v ++ ',' :: writeMembers (w :: rest)),
      by simp [writeMembers, writeString]⟩

theorem NoDigitHead_cons (c : Char) (t : List Char) (h : c.isDigit = false) :
    NoDigitHead (c :: t) := by
  intro d tl e
  cases e
  exact h

mutual
theorem read_writeValue : ∀ (v : FJsonValue), WellFormed v → ∀ (rest : List Char),
    NoDigitHead rest → ∀ (fuel : Nat), (writeValue v).length < fuel →
    read fuel Mode.value (writeValue v ++ rest) = some (v, rest)
  | FJsonValue.Null, _, rest, _, fuel, hf => by
    cases fuel with
    | zero => omega
    | succ f => simpa [writeValue] using read_null f rest
  | FJsonValue.Boolean b, _, rest, _, fuel, hf => by
    cases fuel with
    | zero => omega
    | succ f =>
      cases b
      · simpa [writeValue] using read_false f rest
      · simpa [writeValue] using read_true f rest
  | FJsonValue.Number n, _, rest, hrest, fuel, hf => by
    cases fuel with
    | zero => omega
    | succ f =>
      have hr := readNumber_writeInt n rest hrest
      simp only [writeValue]
      cases n with
      | ofNat m =>
        obtain ⟨d, tl, hd, htl⟩ := writeNat_head m
        have hs := digitChar_spec d hd
        simp only [writeInt, htl, List.cons_append] at hr ⊢
        rw [read_number f _ _ hs.2.2.1 hs.2.2.2.1 hs.2.2.2.2.1 hs.2.2.2.2.2.1 hs.2.2.2.2.2.2.1
          hs.2.2.2.2.2.2.2.1 hs.2.2.2.2.2.2.2.2.1]
        exact hr
      | negSucc m =>
        simp only [writeInt, List.cons_append] at hr ⊢
        rw [read_number f _ _ (by decide) (by decide) (by decide) (by decide) (by decide)
          (by decide) (by decide)]
        exact hr
  | FJsonValue.String s, _, rest, _, fuel, hf => by
    cases fuel with
    | zero => omega
    | succ f =>
      obtain ⟨tl, h1, h2⟩ := readString_writeString s rest
      simp only [writeValue]
      rw [h1]
      exact read_string f tl rest s h2
  | FJsonValue.Array a, hwf, rest, _, fuel, hf => by
    cases fuel with
    | zero => omega
    | succ f =>
      cases a with
      | nil => simpa [writeValue, writeElements] using read_array_nil f rest
      | cons e es =>
        have hwf2 : WellFormedElements (e :: es) := by simpa [WellFormed] using hwf
        have hlen : (writeElements (e :: es)).length + 1 < f := by
          simp only [writeValue, List.length_cons, List.length_append, List.length_nil] at hf
          omega
        have ih := read_writeElements (e :: es) (by simp) hwf2 [] rest f hlen
        obtain ⟨c, tl, hc, hws, hne⟩ := writeElements_head e es
        simp only [writeValue, List.cons_append, List.append_assoc, List.nil_append]
        rw [hc, List.cons_append, read_array f c _ hws hne, ← List.cons_append, ← hc]
        simpa using ih
  | FJsonValue.Object o, hwf, rest, _, fuel, hf => by
    cases fuel with
    | zero => omega
    | succ f =>
      cases o with
      | nil => simpa [writeValue, writeMembers] using read_object_nil f rest
      | cons m ms =>
        have hwf2 : WellFormedMembers (m :: ms) := by simpa [WellFormed] using hwf
        have hlen : (writeMembers (m :: ms)).length + 1 < f := by
          simp only [writeValue, List.length_cons, List.length_append, List.length_nil] at hf
          omega
        have ih := read_writeMembers (m :: ms) (by simp) hwf2 [] (by simp) rest f hlen
        obtain ⟨tl, hc⟩ := writeMembers_head m ms
        simp only [writeValue, List.cons_append, List.append_assoc, List.nil_append]
        rw [hc, List.cons_append, read_object f _, ← List.cons_append, ← hc]
        simpa using ih
theorem read_writeElements : ∀ (es : List FJsonValue), es ≠ [] → WellFormedElements es →
    ∀ (acc : List FJsonValue) (rest : List Char) (fuel : Nat),
    (writeElements es).length + 1 < fuel →
    read fuel (Mode.elements acc) (writeElements es ++ ']' :: rest) =
      some (FJsonValue.Array (acc ++ es), rest)
  | [], hne, _, _, _, _, _ => absurd rfl hne
  | [e], _, hwf, acc, rest, fuel, hf => by
    cases fuel with
    | zero => omega
    | succ f =>
      have hwe : WellFormed e := by
        simp only [WellFormedElements] at hwf
        exact hwf.1
      have hlen : (writeValue e).length < f := by
        simp only [writeElements] at hf
        omega
      have hv := read_writeValue e hwe (']' :: rest) (NoDigitHead_cons _ _ (by decide)) f hlen
      simp only [writeElements]
      exact read_elements_last f acc _ rest e hv
  | e :: w :: es, _, hwf, acc, rest, fuel, hf => by
    cases fuel with
    | zero => omega
    | succ f =>
      have hwf1 : WellFormed e ∧ WellFormedElements (w :: es) := by
        simpa only [WellFormedElements] using hwf
      have hlen : (writeValue e).length < f ∧ (writeElements (w :: es)).length + 1 < f := by
        simp only [writeElements, List.length_append, List.length_cons] at hf
        omega
      have hv := read_writeValue e hwf1.1 (',' :: (writeElements (w :: es) ++ ']' :: rest))
        (NoDigitHead_cons _ _ (by decide)) f hlen.1
      have ih := read_writeElements (w :: es) (by simp) hwf1.2 (acc ++ [e]) rest f hlen.2
      simp only [writeElements, List.append_assoc, List.cons_append]
      rw [read_elements_more f acc _ _ e hv, ih]
      simp
theorem read_writeMembers : ∀ (ms : List (String × FJsonValue)), ms ≠ [] →
    WellFormedMembers ms → ∀ (acc : List (String × FJsonValue)),
    (∀ k ∈ ms.map Prod.fst, k ∉ acc.map Prod.fst) → ∀ (rest : List Char) (fuel : Nat),
    (writeMembers ms).length + 1 < fuel →
    read fuel (Mode.members acc) (writeMembers ms ++ '}' :: rest) =
      some (FJsonValue.Object (acc ++ ms), rest)
  | [], hne, _, _, _, _, _, _ => absurd rfl hne
  | [(k, v)], _, hwf, acc, hdis, rest, fuel, hf => by
    cases fuel with
    | zero => omega
    | succ f =>
      have hwv : WellFormed v := by
        simp only [WellFormedMembers] at hwf
        exact hwf.2.1
      have hlen : (writeValue v).length < f := by
        simp only [writeMembers, List.length_append, List.length_cons] at hf
        omega
      have hv := read_writeValue v hwv ('}' :: rest) (NoDigitHead_cons _ _ (by decide)) f hlen
      obtain ⟨tl, h1, h2⟩ := readString_writeString k (':' :: (writeValue v ++ '}' :: rest))
      have hk : k ∉ acc.map Prod.fst := hdis k (by simp)
      simp only [writeMembers, List.append_assoc, List.cons_append]
      rw [h1, read_members_last f acc tl _ rest k v h2 hv, TMapAdd_of_not_mem acc k v hk]
  | (k, v) :: m :: ms, _, hwf, acc, hdis, rest, fuel, hf => by
    cases fuel with
    | zero => omega
    | succ f =>
      have hwf1 : k ∉ (m :: ms).map Prod.fst ∧ WellFormed v ∧ WellFormedMembers (m :: ms) := by
        simpa only [WellFormedMembers] using hwf
      have hlen : (writeValue v).length < f ∧ (writeMembers (m :: ms)).length + 1 < f := by
        simp only [writeMembers, List.length_append, List.length_cons] at hf
        omega
      have hv := read_writeValue v hwf1.2.1 (',' :: (writeMembers (m :: ms) ++ '}' :: rest))
        (NoDigitHead_cons _ _ (by decide)) f hlen.1
      obtain ⟨tl, h1, h2⟩ := readString_writeString k
        (':' :: (writeValue v ++ ',' :: (writeMembers (m :: ms) ++ '}' :: rest)))
      have hk : k ∉ acc.map Prod.fst := hdis k (by simp)
      have hdis2 : ∀ j ∈ (m :: ms).map Prod.fst, j ∉ (acc ++ [(k, v)]).map Prod.fst := by
        intro j hj hmem
        simp only [List.map_append, List.map_cons, List.map_nil, List.mem_append,
          List.mem_singleton] at hmem
        rcases hmem with hmem | rfl
        · exact hdis j (List.mem_cons_of_mem _ hj) hmem
        · exact hwf1.1 hj
      have ih := read_writeMembers (m :: ms) (by simp) hwf1.2.2 (acc ++ [(k, v)]) hdis2 rest f
        hlen.2
      simp only [writeMembers, List.append_assoc, List.cons_append]
      rw [h1, read_members_more f acc tl _ _ k v h2 hv, TMapAdd_of_not_mem acc k v hk, ih]
      simp
end


end Ref

/-- C3: for every request type and every mapping of strings to strings, the built request is the
encoding of an envelope with `op` 6 whose `d` has exactly the fields `requestType`, `requestId`
(the GUID of the call) and `requestData`, the last holding exactly the pairs of the mapping as
strings; it is the empty object for the empty mapping.  `ToggleInputMute` sends this envelope
with the single pair `inputName`. -/
theorem MakeRequestJsonObject_envelope (L : Lib) (NewGuid RequestType : String)
    (fields : List (String × String)) (hmap : (fields.map Prod.fst).Nodup) :
    MakeRequestJsonObject L NewGuid RequestType fields =
      L.Serialize
        [("op", FJsonValue.Number 6),
         ("d", FJsonValue.Object
            [("requestType", FJsonValue.String RequestType),
             ("requestId", FJsonValue.String NewGuid),
             ("requestData",
                FJsonValue.Object (fields.map fun n => (n.1, FJsonValue.String n.2)))])] ∧
    MakeRequestJsonObject L NewGuid RequestType [] =
      L.Serialize
        [("op", FJsonValue.Number 6),
         ("d", FJsonValue.Object
            [("requestType", FJsonValue.String RequestType),
             ("requestId", FJsonValue.String NewGuid),
             ("requestData", FJsonValue.Object [])])] ∧
    ∀ (InputName : String) (w : World),
      ToggleInputMute L NewGuid InputName w =
        ⟨w.IsConnected, w.Calls ++ [Call.Send (L.Serialize
          [("op", FJsonValue.Number 6),
           ("d", FJsonValue.Object
              [("requestType", FJsonValue.String "ToggleInputMute"),
               ("requestId", FJsonValue.String NewGuid),
               ("requestData",
                  FJsonValue.Object [("inputName", FJsonValue.String InputName)])])])]⟩ := by
  have hfold := foldl_SetStringField fields [] hmap (by simp)
  refine ⟨?_, ?_, ?_⟩
  · unfold MakeRequestJsonObject
    rw [FormJsonMessage_eq]
    cases fields with
    | nil => simp [SetStringField, SetObjectField, TMapAdd, EClientRequest.toInt]
    | cons n rest =>
      simp only [List.isEmpty_cons, Bool.not_false, if_true, hfold]
      simp [SetStringField, SetObjectField, TMapAdd, EClientRequest.toInt]
  · unfold MakeRequestJsonObject
    rw [FormJsonMessage_eq]
    simp [SetStringField, SetObjectField, TMapAdd, EClientRequest.toInt]
  · intro InputName w
    simp [ToggleInputMute, MakeRequestJsonObject, FormJsonMessage_eq, World.Send, SetStringField,
      SetObjectField, TMapAdd, EClientRequest.toInt]

theorem MakeRequestJsonObject_envelope_witness :
    ([("inputName", "Mic")].map Prod.fst).Nodup ∧
    MakeRequestJsonObject Ref.lib "0F1E2D3C4B5A69788796A5B4C3D2E1F0" "ToggleInputMute"
        [("inputName", "Mic")] =
      "\x7b\"op\":6,\"d\":\x7b\"requestType\":\"ToggleInputMute\",\"requestId\":\"0F1E2D3C4B5A69788796A5B4C3D2E1F0\",\"requestData\":\x7b\"inputName\":\"Mic\"\x7d\x7d\x7d" :=
  ⟨by decide,
    (MakeRequestJsonObject_envelope Ref.lib "0F1E2D3C4B5A69788796A5B4C3D2E1F0" "ToggleInputMute"
      [("inputName", "Mic")] (by decide)).1.trans (by decide)⟩

theorem Identify_eq (L : Lib) (o : FJsonObject) (Password Key : String) (w : World)
    (hkey : GenerateAuthenticationKey L Password
      (GetStringField (GetObjectField (GetObjectField o "d") "authentication") "salt")
      (GetStringField (GetObjectField (GetObjectField o "d") "authentication") "challenge") =
        some Key) :
    Identify L o Password w =
      some ⟨w.IsConnected, w.Calls ++ [Call.Send (L.Serialize
        [("op", FJsonValue.Number 1),
         ("d", FJsonValue.Object
            [("rpcVersion", FJsonValue.Number 1),
             ("authentication", FJsonValue.String Key),
             ("eventSubscriptions", FJsonValue.Number 33)])])]⟩ := by
  simp [Identify, hkey, FormJsonMessage_eq, World.Send, SetNumberField, SetStringField, TMapAdd,
    EClientRequest.toInt]

/-- C2: on a Hello envelope with challenge `c` and salt `s`, the message handler makes exactly
one transport call, a Send, whose text is the encoding of the envelope with `op` 1 and `d` =
{rpcVersion: 1, authentication: GenerateAuthenticationKey(p, s, c), eventSubscriptions: 33}. -/
theorem OnMessage_Hello_sends_Identify (L : Lib) (hhash : RendersDigestAs64HexDigits L)
    (Password Message Challenge Salt : String) (w : World)
    (hmsg : L.Deserialize Message =
      some [("op", FJsonValue.Number 0),
            ("d", FJsonValue.Object
              [("authentication", FJsonValue.Object
                [("challenge", FJsonValue.String Challenge),
                 ("salt", FJsonValue.String Salt)])])]) :
    ∃ Key, GenerateAuthenticationKey L Password Salt Challenge = some Key ∧
      OnMessage L Password Message w =
        some ⟨w.IsConnected, w.Calls ++ [Call.Send (L.Serialize
          [("op", FJsonValue.Number 1),
           ("d", FJsonValue.Object
              [("rpcVersion", FJsonValue.Number 1),
               ("authentication", FJsonValue.String Key),
               ("eventSubscriptions", FJsonValue.Number 33)])])]⟩ := by
  obtain ⟨Key, hkey⟩ := GenerateAuthenticationKey_defined L hhash Password Salt Challenge
  refine ⟨Key, hkey, ?_⟩
  have hop : (ReadEnvelope L Message).2.1 = FromInt EClientRequest.OpCode0.toInt := by
    simp only [ReadEnvelope, hmsg]
    rfl
  have hdoc : (ReadEnvelope L Message).1 =
      [("op", FJsonValue.Number 0),
       ("d", FJsonValue.Object
          [("authentication", FJsonValue.Object
            [("challenge", FJsonValue.String Challenge),
             ("salt", FJsonValue.String Salt)])])] := by
    simp only [ReadEnvelope, hmsg]
  simp only [OnMessage, hop, if_true, hdoc]
  exact Identify_eq L _ Password Key w hkey

theorem OnMessage_Hello_sends_Identify_witness :
    RendersDigestAs64HexDigits Ref.lib ∧
    Ref.lib.Deserialize
        "\x7b\"op\":0,\"d\":\x7b\"authentication\":\x7b\"challenge\":\"abc\",\"salt\":\"xyz\"\x7d\x7d\x7d" =
      some [("op", FJsonValue.Number 0),
            ("d", FJsonValue.Object
              [("authentication", FJsonValue.Object
                [("challenge", FJsonValue.String "abc"),
                 ("salt", FJsonValue.String "xyz")])])] ∧
    ∃ Key, GenerateAuthenticationKey Ref.lib "password" "xyz" "abc" = some Key ∧
      OnMessage Ref.lib "password"
          "\x7b\"op\":0,\"d\":\x7b\"authentication\":\x7b\"challenge\":\"abc\",\"salt\":\"xyz\"\x7d\x7d\x7d"
          ⟨true, [Call.Connect]⟩ =
        some ⟨true, [Call.Connect] ++ [Call.Send (Ref.lib.Serialize
          [("op", FJsonValue.Number 1),
           ("d", FJsonValue.Object
              [("rpcVersion", FJsonValue.Number 1),
               ("authentication", FJsonValue.String Key),
               ("eventSubscriptions", FJsonValue.Number 33)])])]⟩ :=
  ⟨Ref.lib_renders, by rfl,
    OnMessage_Hello_sends_Identify Ref.lib Ref.lib_renders "password"
      "\x7b\"op\":0,\"d\":\x7b\"authentication\":\x7b\"challenge\":\"abc\",\"salt\":\"xyz\"\x7d\x7d\x7d"
      "abc" "xyz" ⟨true, [Call.Connect]⟩ (by rfl)⟩

theorem OnMessage_of_Hello (L : Lib) (Password Message : String) (w : World)
    (hop : (ReadEnvelope L Message).2.1 = FromInt EClientRequest.OpCode0.toInt) :
    OnMessage L Password Message w = Identify L (ReadEnvelope L Message).1 Password w := by
  simp only [OnMessage, hop, if_true]

theorem Identify_defined (L : Lib) (hhash : RendersDigestAs64HexDigits L) (o : FJsonObject)
    (Password : String) :
    ∃ Key,
      GenerateAuthenticationKey L Password
        (GetStringField (GetObjectField (GetObjectField o "d") "authentication") "salt")
        (GetStringField (GetObjectField (GetObjectField o "d") "authentication") "challenge") =
        some Key ∧
      ∀ v : World,
        Identify L o Password v =
          some ⟨v.IsConnected, v.Calls ++ [Call.Send (L.Serialize
            [("op", FJsonValue.Number 1),
             ("d", FJsonValue.Object
                [("rpcVersion", FJsonValue.Number 1),
                 ("authentication", FJsonValue.String Key),
                 ("eventSubscriptions", FJsonValue.Number 33)])])]⟩ := by
  obtain ⟨Key, hkey⟩ := GenerateAuthenticationKey_defined L hhash Password
    (GetStringField (GetObjectField (GetObjectField o "d") "authentication") "salt")
    (GetStringField (GetObjectField (GetObjectField o "d") "authentication") "challenge")
  exact ⟨Key, hkey, fun v => Identify_eq L o Password Key v hkey⟩

/-- C6, as the code has it: the handler keeps no lifecycle state and does not ask the transport
whether it is connected.  A Hello envelope is answered by exactly one Send of an Identify
envelope, whose key is derived from the password and from the salt and challenge read from the
message; the text sent is the same in every state of the connection, and the connected flag is
left as it was. -/
theorem OnMessage_Hello_in_any_state (L : Lib) (hhash : RendersDigestAs64HexDigits L)
    (Password Message : String)
    (hop : (ReadEnvelope L Message).2.1 = FromInt EClientRequest.OpCode0.toInt) :
    ∃ Key,
      GenerateAuthenticationKey L Password
        (GetStringField (GetObjectField (ReadEnvelope L Message).2.2 "authentication") "salt")
        (GetStringField (GetObjectField (ReadEnvelope L Message).2.2 "authentication")
          "challenge") = some Key ∧
      ∀ w : World,
        OnMessage L Password Message w =
          some ⟨w.IsConnected, w.Calls ++ [Call.Send (L.Serialize
            [("op", FJsonValue.Number 1),
             ("d", FJsonValue.Object
                [("rpcVersion", FJsonValue.Number 1),
                 ("authentication", FJsonValue.String Key),
                 ("eventSubscriptions", FJsonValue.Number 33)])])]⟩ := by
  obtain ⟨Key, hkey, h⟩ := Identify_defined L hhash (ReadEnvelope L Message).1 Password
  exact ⟨Key, hkey, fun w => by rw [OnMessage_of_Hello L Password Message w hop, h w]⟩

set_option maxRecDepth 100000 in
theorem OnMessage_Hello_in_any_state_witness :
    RendersDigestAs64HexDigits Ref.lib ∧
    (ReadEnvelope Ref.lib
      "\x7b\"op\":0,\"d\":\x7b\"authentication\":\x7b\"challenge\":\"abc\",\"salt\":\"xyz\"\x7d\x7d\x7d").2.1 =
      FromInt EClientRequest.OpCode0.toInt ∧
    GetStringField (GetObjectField (ReadEnvelope Ref.lib
      "\x7b\"op\":0,\"d\":\x7b\"authentication\":\x7b\"challenge\":\"abc\",\"salt\":\"xyz\"\x7d\x7d\x7d").2.2
        "authentication") "salt" = "xyz" ∧
    GetStringField (GetObjectField (ReadEnvelope Ref.lib
      "\x7b\"op\":0,\"d\":\x7b\"authentication\":\x7b\"challenge\":\"abc\",\"salt\":\"xyz\"\x7d\x7d\x7d").2.2
        "authentication") "challenge" = "abc" ∧
    GenerateAuthenticationKey Ref.lib "password" "xyz" "abc" =
      some "WRJLiqnuLrOw2yLDX1damdd77CeRYoPb2A+vPJAwub0=" ∧
    ∃ Key,
      GenerateAuthenticationKey Ref.lib "password"
        (GetStringField (GetObjectField (ReadEnvelope Ref.lib
          "\x7b\"op\":0,\"d\":\x7b\"authentication\":\x7b\"challenge\":\"abc\",\"salt\":\"xyz\"\x7d\x7d\x7d").2.2
            "authentication") "salt")
        (GetStringField (GetObjectField (ReadEnvelope Ref.lib
          "\x7b\"op\":0,\"d\":\x7b\"authentication\":\x7b\"challenge\":\"abc\",\"salt\":\"xyz\"\x7d\x7d\x7d").2.2
            "authentication") "challenge") = some Key ∧
      ∀ w : World,
        OnMessage Ref.lib "password"
            "\x7b\"op\":0,\"d\":\x7b\"authentication\":\x7b\"challenge\":\"abc\",\"salt\":\"xyz\"\x7d\x7d\x7d"
            w =
          some ⟨w.IsConnected, w.Calls ++ [Call.Send (Ref.lib.Serialize
            [("op", FJsonValue.Number 1),
             ("d", FJsonValue.Object
                [("rpcVersion", FJsonValue.Number 1),
                 ("authentication", FJsonValue.String Key),
                 ("eventSubscriptions", FJsonValue.Number 33)])])]⟩ :=
  ⟨Ref.lib_renders, by decide, by decide, by decide, by decide,
    OnMessage_Hello_in_any_state Ref.lib Ref.lib_renders "password"
      "\x7b\"op\":0,\"d\":\x7b\"authentication\":\x7b\"challenge\":\"abc\",\"salt\":\"xyz\"\x7d\x7d\x7d"
      (by decide)⟩

set_option maxRecDepth 100000 in
/-- C6 fails on the code: a Hello received while the transport is not connected and no Connect
was ever called is answered with an Identify, and so is a second Hello received after the
handshake has completed. -/
theorem OnMessage_Hello_not_ignored :
    OnMessage Ref.lib "password"
        "\x7b\"op\":0,\"d\":\x7b\"authentication\":\x7b\"challenge\":\"abc\",\"salt\":\"xyz\"\x7d\x7d\x7d"
        ⟨false, []⟩ =
      some ⟨false, [Call.Send
        "\x7b\"op\":1,\"d\":\x7b\"rpcVersion\":1,\"authentication\":\"WRJLiqnuLrOw2yLDX1damdd77CeRYoPb2A+vPJAwub0=\",\"eventSubscriptions\":33\x7d\x7d"]⟩ ∧
    ((OnMessage Ref.lib "password"
        "\x7b\"op\":0,\"d\":\x7b\"authentication\":\x7b\"challenge\":\"abc\",\"salt\":\"xyz\"\x7d\x7d\x7d"
        (TransportConnected (StartConnection ⟨false, []⟩))).bind fun w1 =>
      (OnMessage Ref.lib "password" "\x7b\"op\":2,\"d\":\x7b\"negotiatedRpcVersion\":1\x7d\x7d"
        w1).bind fun w2 =>
      OnMessage Ref.lib "password"
        "\x7b\"op\":0,\"d\":\x7b\"authentication\":\x7b\"challenge\":\"abc\",\"salt\":\"xyz\"\x7d\x7d\x7d"
        w2) =
      some ⟨true, [Call.Connect,
        Call.Send
          "\x7b\"op\":1,\"d\":\x7b\"rpcVersion\":1,\"authentication\":\"WRJLiqnuLrOw2yLDX1damdd77CeRYoPb2A+vPJAwub0=\",\"eventSubscriptions\":33\x7d\x7d",
        Call.Send
          "\x7b\"op\":1,\"d\":\x7b\"rpcVersion\":1,\"authentication\":\"WRJLiqnuLrOw2yLDX1damdd77CeRYoPb2A+vPJAwub0=\",\"eventSubscriptions\":33\x7d\x7d"]⟩ := by
  constructor <;> decide

theorem OnMessage_of_not_Hello (L : Lib) (Password Message : String) (w : World)
    (hop : (ReadEnvelope L Message).2.1 ≠ FromInt EClientRequest.OpCode0.toInt) :
    OnMessage L Password Message w = some w := by
  simp only [OnMessage, if_neg hop]
  split
  · rfl
  · split
    · rfl
    · split <;> rfl

theorem GetObjectField_of_missing (o : FJsonObject) (FieldName : String)
    (h : FindField o FieldName = none) : GetObjectField o FieldName = [] := by
  simp only [GetObjectField, h]
  rfl

theorem GetObjectField_of_object (o d : FJsonObject) (FieldName : String)
    (h : FindField o FieldName = some (FJsonValue.Object d)) : GetObjectField o FieldName = d := by
  simp only [GetObjectField, h]
  rfl

theorem GetStringField_of_option (a : FJsonObject) (FieldName : String) (s : Option String)
    (h : FindField a FieldName = s.map FJsonValue.String) :
    GetStringField a FieldName = s.getD "" := by
  cases s with
  | none =>
    simp only [Option.map_none'] at h
    simp only [GetStringField, h]
    rfl
  | some x =>
    simp only [Option.map_some'] at h
    simp only [GetStringField, h]
    rfl

theorem OnMessage_Hello_of_document (L : Lib) (hhash : RendersDigestAs64HexDigits L)
    (Password Message : String) (w : World) (o : FJsonObject) (Salt Challenge : String)
    (ho : L.Deserialize Message = some o)
    (hop : GetStringField o "op" = FromInt EClientRequest.OpCode0.toInt)
    (hsalt : GetStringField (GetObjectField (GetObjectField o "d") "authentication") "salt" =
      Salt)
    (hchallenge :
      GetStringField (GetObjectField (GetObjectField o "d") "authentication") "challenge" =
        Challenge) :
    ∃ Key, GenerateAuthenticationKey L Password Salt Challenge = some Key ∧
      OnMessage L Password Message w =
        some ⟨w.IsConnected, w.Calls ++ [Call.Send (L.Serialize
          [("op", FJsonValue.Number 1),
           ("d", FJsonValue.Object
              [("rpcVersion", FJsonValue.Number 1),
               ("authentication", FJsonValue.String Key),
               ("eventSubscriptions", FJsonValue.Number 33)])])]⟩ := by
  obtain ⟨Key, hkey⟩ := GenerateAuthenticationKey_defined L hhash Password Salt Challenge
  refine ⟨Key, hkey, ?_⟩
  have hop2 : (ReadEnvelope L Message).2.1 = FromInt EClientRequest.OpCode0.toInt := by
    simp only [ReadEnvelope, ho]
    exact hop
  have hdoc : (ReadEnvelope L Message).1 = o := by
    simp only [ReadEnvelope, ho]
  rw [OnMessage_of_Hello L Password Message w hop2, hdoc]
  apply Identify_eq
  rw [hsalt, hchallenge]
  exact hkey

/-- C7, as the code has it: a text that is not valid JSON, a document without the field `op`,
and a document without the field `d` whose `op` is not that of a Hello, are dropped: the handler
completes and makes no transport call, and the connection is as before.  A Hello that lacks a
required field is not dropped.  Without `d` or without `d.authentication`, challenge and salt
both read as empty strings; with `d.authentication` but without `challenge` or without `salt`,
the missing one reads as the empty string; in each case the Identify whose key is derived from
the strings so read is sent.  A field is found whatever the case of the letters of its key. -/
theorem OnMessage_malformed (L : Lib) (hhash : RendersDigestAs64HexDigits L)
    (Password Message : String) (w : World) :
    ((L.Deserialize Message = none ∨
      ∃ o, L.Deserialize Message = some o ∧
        (FindField o "op" = none ∨
          (FindField o "d" = none ∧
            GetStringField o "op" ≠ FromInt EClientRequest.OpCode0.toInt))) →
      OnMessage L Password Message w = some w) ∧
    (∀ o, L.Deserialize Message = some o →
      GetStringField o "op" = FromInt EClientRequest.OpCode0.toInt →
      (FindField o "d" = none ∨
        ∃ d, FindField o "d" = some (FJsonValue.Object d) ∧
          FindField d "authentication" = none) →
      ∃ Key, GenerateAuthenticationKey L Password "" "" = some Key ∧
        OnMessage L Password Message w =
          some ⟨w.IsConnected, w.Calls ++ [Call.Send (L.Serialize
            [("op", FJsonValue.Number 1),
             ("d", FJsonValue.Object
                [("rpcVersion", FJsonValue.Number 1),
                 ("authentication", FJsonValue.String Key),
                 ("eventSubscriptions", FJsonValue.Number 33)])])]⟩) ∧
    (∀ (o d a : FJsonObject) (Challenge Salt : Option String),
      L.Deserialize Message = some o →
      GetStringField o "op" = FromInt EClientRequest.OpCode0.toInt →
      FindField o "d" = some (FJsonValue.Object d) →
      FindField d "authentication" = some (FJsonValue.Object a) →
      FindField a "challenge" = Challenge.map FJsonValue.String →
      FindField a "salt" = Salt.map FJsonValue.String →
      (Challenge = none ∨ Salt = none) →
      ∃ Key,
        GenerateAuthenticationKey L Password (Salt.getD "") (Challenge.getD "") = some Key ∧
        OnMessage L Password Message w =
          some ⟨w.IsConnected, w.Calls ++ [Call.Send (L.Serialize
            [("op", FJsonValue.Number 1),
             ("d", FJsonValue.Object
                [("rpcVersion", FJsonValue.Number 1),
                 ("authentication", FJsonValue.String Key),
                 ("eventSubscriptions", FJsonValue.Number 33)])])]⟩) := by
  refine ⟨?_, ?_, ?_⟩
  · intro h
    apply OnMessage_of_not_Hello
    rcases h with h | ⟨o, ho, h | h⟩
    · simp only [ReadEnvelope, h]
      decide
    · simp only [ReadEnvelope, ho, GetStringField, h]
      decide
    · simp only [ReadEnvelope, ho]
      exact h.2
  · intro o ho hop hd
    have hauth : GetObjectField (GetObjectField o "d") "authentication" = [] := by
      rcases hd with hd | ⟨d, hd, ha⟩
      · rw [GetObjectField_of_missing o "d" hd]
        rfl
      · rw [GetObjectField_of_object o d "d" hd, GetObjectField_of_missing d "authentication" ha]
    apply OnMessage_Hello_of_document L hhash Password Message w o "" "" ho hop
    · rw [hauth]
      rfl
    · rw [hauth]
      rfl
  · intro o d a Challenge Salt ho hop hd ha hc hs _
    have hauth : GetObjectField (GetObjectField o "d") "authentication" = a := by
      rw [GetObjectField_of_object o d "d" hd, GetObjectField_of_object d a "authentication" ha]
    apply OnMessage_Hello_of_document L hhash Password Message w o _ _ ho hop
    · rw [hauth]
      exact GetStringField_of_option a "salt" Salt hs
    · rw [hauth]
      exact GetStringField_of_option a "challenge" Challenge hc

set_option maxRecDepth 100000 in
theorem OnMessage_malformed_witness :
    RendersDigestAs64HexDigits Ref.lib ∧
    (Ref.lib.Deserialize "\x7b\"op\":0,\"d\":" = none ∨
      ∃ o, Ref.lib.Deserialize "\x7b\"op\":0,\"d\":" = some o ∧
        (FindField o "op" = none ∨
          (FindField o "d" = none ∧
            GetStringField o "op" ≠ FromInt EClientRequest.OpCode0.toInt))) ∧
    OnMessage Ref.lib "password" "\x7b\"op\":0,\"d\":" ⟨true, [Call.Connect]⟩ =
      some ⟨true, [Call.Connect]⟩ ∧
    Ref.lib.Deserialize "\x7b\"op\":0\x7d" = some [("op", FJsonValue.Number 0)] ∧
    GetStringField [("op", FJsonValue.Number 0)] "op" = FromInt EClientRequest.OpCode0.toInt ∧
    FindField [("op", FJsonValue.Number 0)] "d" = none ∧
    (∃ Key, GenerateAuthenticationKey Ref.lib "password" "" "" = some Key ∧
      OnMessage Ref.lib "password" "\x7b\"op\":0\x7d" ⟨true, [Call.Connect]⟩ =
        some ⟨true, [Call.Connect] ++ [Call.Send (Ref.lib.Serialize
          [("op", FJsonValue.Number 1),
           ("d", FJsonValue.Object
              [("rpcVersion", FJsonValue.Number 1),
               ("authentication", FJsonValue.String Key),
               ("eventSubscriptions", FJsonValue.Number 33)])])]⟩) ∧
    Ref.lib.Deserialize
        "\x7b\"op\":0,\"d\":\x7b\"authentication\":\x7b\"salt\":\"xyz\"\x7d\x7d\x7d" =
      some [("op", FJsonValue.Number 0),
            ("d", FJsonValue.Object
              [("authentication", FJsonValue.Object [("salt", FJsonValue.String "xyz")])])] ∧
    FindField [("salt", FJsonValue.String "xyz")] "challenge" =
      (none : Option String).map FJsonValue.String ∧
    ∃ Key, GenerateAuthenticationKey Ref.lib "password" "xyz" "" = some Key ∧
      OnMessage Ref.lib "password"
          "\x7b\"op\":0,\"d\":\x7b\"authentication\":\x7b\"salt\":\"xyz\"\x7d\x7d\x7d"
          ⟨true, [Call.Connect]⟩ =
        some ⟨true, [Call.Connect] ++ [Call.Send (Ref.lib.Serialize
          [("op", FJsonValue.Number 1),
           ("d", FJsonValue.Object
              [("rpcVersion", FJsonValue.Number 1),
               ("authentication", FJsonValue.String Key),
               ("eventSubscriptions", FJsonValue.Number 33)])])]⟩ :=
  ⟨Ref.lib_renders, Or.inl (by rfl),
    (OnMessage_malformed Ref.lib Ref.lib_renders "password" "\x7b\"op\":0,\"d\":"
      ⟨true, [Call.Connect]⟩).1 (Or.inl (by rfl)),
    by rfl, by rfl, by rfl,
    (OnMessage_malformed Ref.lib Ref.lib_renders "password" "\x7b\"op\":0\x7d"
      ⟨true, [Call.Connect]⟩).2.1 [("op", FJsonValue.Number 0)] (by rfl) (by rfl)
      (Or.inl (by rfl)),
    by rfl, by rfl,
    (OnMessage_malformed Ref.lib Ref.lib_renders "password"
      "\x7b\"op\":0,\"d\":\x7b\"authentication\":\x7b\"salt\":\"xyz\"\x7d\x7d\x7d"
      ⟨true, [Call.Connect]⟩).2.2
      [("op", FJsonValue.Number 0),
       ("d", FJsonValue.Object
          [("authentication", FJsonValue.Object [("salt", FJsonValue.String "xyz")])])]
      [("authentication", FJsonValue.Object [("salt", FJsonValue.String "xyz")])]
      [("salt", FJsonValue.String "xyz")] none (some "xyz")
      (by rfl) (by rfl) (by rfl) (by rfl) (by rfl) (by rfl) (Or.inl rfl)⟩

set_option maxRecDepth 100000 in
/-- C7 fails on the code: a Hello without the field `d` is valid JSON that lacks a required
field, and the handler does not drop it: the missing challenge and salt read as empty strings
and an Identify derived from them is sent. -/
theorem OnMessage_Hello_without_d_sends :
    Ref.lib.Deserialize "\x7b\"op\":0\x7d" = some [("op", FJsonValue.Number 0)] ∧
    FindField [("op", FJsonValue.Number 0)] "d" = none ∧
    GenerateAuthenticationKey Ref.lib "password" "" "" =
      some "y6p/q0Uk5DJfwKJBDmJCLeLfrA3BxVtaQQKSQBX09Pc=" ∧
    OnMessage Ref.lib "password" "\x7b\"op\":0\x7d" ⟨true, [Call.Connect]⟩ =
      some ⟨true, [Call.Connect, Call.Send
        "\x7b\"op\":1,\"d\":\x7b\"rpcVersion\":1,\"authentication\":\"y6p/q0Uk5DJfwKJBDmJCLeLfrA3BxVtaQQKSQBX09Pc=\",\"eventSubscriptions\":33\x7d\x7d"]⟩ :=
  ⟨by rfl, by rfl, by decide, by decide⟩

set_option maxRecDepth 100000 in
theorem OnMessage_Hello_with_capital_keys :
    OnMessage Ref.lib "password"
        "\x7b\"OP\":0,\"D\":\x7b\"Authentication\":\x7b\"Challenge\":\"abc\",\"SALT\":\"xyz\"\x7d\x7d\x7d"
        ⟨true, [Call.Connect]⟩ =
      some ⟨true, [Call.Connect, Call.Send
        "\x7b\"op\":1,\"d\":\x7b\"rpcVersion\":1,\"authentication\":\"WRJLiqnuLrOw2yLDX1damdd77CeRYoPb2A+vPJAwub0=\",\"eventSubscriptions\":33\x7d\x7d"]⟩ := by
  decide

/-- C8, as the code has it: every request operation hands its request envelope to the
transport's Send at call time, whatever the connected flag and the calls made before; nothing is
queued and no error is reported.  `SetRecordDirectory` sends two envelopes. -/
theorem requests_sent_at_call_time (L : Lib) (Connected : Bool) (Calls : List Call)
    (NewGuid NewGuid2 : String) :
    (∀ Request : String,
      MakeGetRequest L NewGuid Request ⟨Connected, Calls⟩ =
        ⟨Connected, Calls ++ [Call.Send (L.Serialize
          [("op", FJsonValue.Number 6),
           ("d", FJsonValue.Object
              [("requestType", FJsonValue.String Request),
               ("requestId", FJsonValue.String NewGuid),
               ("requestData", FJsonValue.Object [])])])]⟩) ∧
    (∀ (ERecordRequest : Type) (GetDisplayValueAsText : ERecordRequest → String)
        (RecordRequest : ERecordRequest),
      MakeRecordRequest GetDisplayValueAsText L NewGuid RecordRequest ⟨Connected, Calls⟩ =
        ⟨Connected, Calls ++ [Call.Send (L.Serialize
          [("op", FJsonValue.Number 6),
           ("d", FJsonValue.Object
              [("requestType", FJsonValue.String (GetDisplayValueAsText RecordRequest)),
               ("requestId", FJsonValue.String NewGuid),
               ("requestData", FJsonValue.Object [])])])]⟩) ∧
    (∀ InputName : String,
      ToggleInputMute L NewGuid InputName ⟨Connected, Calls⟩ =
        ⟨Connected, Calls ++ [Call.Send (L.Serialize
          [("op", FJsonValue.Number 6),
           ("d", FJsonValue.Object
              [("requestType", FJsonValue.String "ToggleInputMute"),
               ("requestId", FJsonValue.String NewGuid),
               ("requestData",
                  FJsonValue.Object [("inputName", FJsonValue.String InputName)])])])]⟩) ∧
    (∀ parameterCategory parameterName : String,
      GetProfileParameter L NewGuid parameterCategory parameterName ⟨Connected, Calls⟩ =
        ⟨Connected, Calls ++ [Call.Send (L.Serialize
          [("op", FJsonValue.Number 6),
           ("d", FJsonValue.Object
              [("requestType", FJsonValue.String "GetProfileParameter"),
               ("requestId", FJsonValue.String NewGuid),
               ("requestData", FJsonValue.Object
                  [("parameterCategory", FJsonValue.String parameterCategory),
                   ("parameterName", FJsonValue.String parameterName)])])])]⟩) ∧
    (∀ Directory FileName : String,
      SetRecordDirectory L NewGuid NewGuid2 Directory FileName ⟨Connected, Calls⟩ =
        ⟨Connected, Calls ++
          [Call.Send (L.Serialize
            [("op", FJsonValue.Number 6),
             ("d", FJsonValue.Object
                [("requestType", FJsonValue.String "SetProfileParameter"),
                 ("requestId", FJsonValue.String NewGuid),
                 ("requestData", FJsonValue.Object
                    [("parameterValue", FJsonValue.String Directory),
                     ("parameterName", FJsonValue.String "FilePath"),
                     ("parameterCategory", FJsonValue.String "SimpleOutput")])])]),
           Call.Send (L.Serialize
            [("op", FJsonValue.Number 6),
             ("d", FJsonValue.Object
                [("requestType", FJsonValue.String "SetProfileParameter"),
                 ("requestId", FJsonValue.String NewGuid2),
                 ("requestData", FJsonValue.Object
                    [("parameterValue", FJsonValue.String FileName),
                     ("parameterName", FJsonValue.String "FilenameFormatting"),
                     ("parameterCategory", FJsonValue.String "Output")])])])]⟩) := by
  refine ⟨?_, ?_, ?_, ?_, ?_⟩
  · intro Request
    simp [MakeGetRequest, MakeRequestJsonObject, FormJsonMessage_eq, World.Send, SetStringField,
      SetObjectField, TMapAdd, EClientRequest.toInt]
  · intro E disp r
    simp [MakeRecordRequest, MakeRequestJsonObject, FormJsonMessage_eq, World.Send,
      SetStringField, SetObjectField, TMapAdd, EClientRequest.toInt]
  · intro InputName
    simp [ToggleInputMute, MakeRequestJsonObject, FormJsonMessage_eq, World.Send, SetStringField,
      SetObjectField, TMapAdd, EClientRequest.toInt]
  · intro c n
    simp [GetProfileParameter, MakeRequestJsonObject, FormJsonMessage_eq, World.Send,
      SetStringField, SetObjectField, TMapAdd, EClientRequest.toInt]
  · intro d f
    simp [SetRecordDirectory, MakeRequestJsonObject, FormJsonMessage_eq, World.Send,
      SetStringField, SetObjectField, TMapAdd, EClientRequest.toInt]

/-- C8 fails on the code: with the transport not connected and no Identified envelope
received, `ToggleInputMute` sends its request envelope at call time. -/
theorem ToggleInputMute_sends_when_not_ready :
    ToggleInputMute Ref.lib "0F1E2D3C4B5A69788796A5B4C3D2E1F0" "Mic" ⟨false, []⟩ =
      ⟨false, [Call.Send
        "\x7b\"op\":6,\"d\":\x7b\"requestType\":\"ToggleInputMute\",\"requestId\":\"0F1E2D3C4B5A69788796A5B4C3D2E1F0\",\"requestData\":\x7b\"inputName\":\"Mic\"\x7d\x7d\x7d"]⟩ := by
  decide

/-- C9, as the code has it: `StartConnection` calls the transport's Connect exactly when the
transport does not report being connected.  A call while connected makes no transport call; a
call made after an earlier one, before the transport has reported `connected`, calls Connect
again; once the transport has reported `connected`, a further call makes none. -/
theorem StartConnection_Connect (Calls : List Call) :
    StartConnection ⟨true, Calls⟩ = ⟨true, Calls⟩ ∧
    StartConnection ⟨false, Calls⟩ = ⟨false, Calls ++ [Call.Connect]⟩ ∧
    StartConnection (StartConnection ⟨false, Calls⟩) =
      ⟨false, Calls ++ [Call.Connect, Call.Connect]⟩ ∧
    StartConnection (TransportConnected (StartConnection ⟨false, Calls⟩)) =
      ⟨true, Calls ++ [Call.Connect]⟩ := by
  simp [StartConnection, TransportConnected]

/-- C9 fails on the code: two consecutive `StartConnection` calls made before the transport
reports `connected` call the transport's Connect twice. -/
theorem StartConnection_twice_connects_twice :
    (StartConnection ⟨false, []⟩).IsConnected = false ∧
    StartConnection (StartConnection ⟨false, []⟩) = ⟨false, [Call.Connect, Call.Connect]⟩ := by
  decide

end UOBSRecorder
